import Mathlib

/-!
# ChillyWallet core: shallow embedding and verification

A shallow embedding of the ChillyWallet Bitcoin signing core
(`src/utils/transaction.ts`, `src/utils/crypto.ts`,
`src/services/bitcoinService.ts`, `src/utils/psbt.ts`) in Lean 4, with
theorems settling the specification claims about transaction
serialization, BIP-143 preimages, coin selection, address handling and
the PSBT-lite interchange codec.

Conventions:
* JavaScript strings are modelled as `List Char` (`JStr`);
  `Uint8Array` / byte buffers as `List Nat` with entries `< 256`.
* All multi-byte integer stores follow the JS code's arithmetic
  (`x & 0xff`, `x >> 8`, `Math.floor(x / 0x100000000)` …), expressed
  with `Nat` division and remainder.
* Fallible JS code (functions that `throw`) is modelled with
  `Except String` / `Option`.
-/

/-- JavaScript strings, modelled as lists of characters. -/
abbrev JStr := List Char

/-- `uint32ToLE` (transaction.ts): 4 little-endian bytes of `v`.
For every `v : Nat` this agrees with the JS bit operations, which
truncate to 32 bits. -/
def uint32ToLE (v : Nat) : List Nat :=
  [v % 256, v / 256 % 256, v / 65536 % 256, v / 16777216 % 256]

/-- `uint64ToLE` (transaction.ts): low 4 bytes via 32-bit ops, high 4
bytes from `Math.floor(v / 0x100000000)`. -/
def uint64ToLE (v : Nat) : List Nat :=
  uint32ToLE v ++ uint32ToLE (v / 4294967296)

/-- `encodeVarInt` (transaction.ts): Bitcoin variable-length integer. -/
def encodeVarInt (v : Nat) : List Nat :=
  if v < 0xfd then [v]
  else if v ≤ 0xffff then [0xfd, v % 256, v / 256 % 256]
  else if v ≤ 0xffffffff then 0xfe :: uint32ToLE v
  else 0xff :: uint64ToLE v

/-- Value of a hex digit character, `none` for non-hex characters. -/
def hexDigitVal (c : Char) : Option Nat :=
  if '0' ≤ c ∧ c ≤ '9' then some (c.toNat - '0'.toNat)
  else if 'a' ≤ c ∧ c ≤ 'f' then some (c.toNat - 'a'.toNat + 10)
  else if 'A' ≤ c ∧ c ≤ 'F' then some (c.toNat - 'A'.toNat + 10)
  else none

/-- One byte from two hex digits, following JS `parseInt(hex2, 16)`
(which parses the maximal valid prefix) coerced through `Uint8Array`
(`NaN` becomes `0`). -/
def hexPairVal (a b : Char) : Nat :=
  match hexDigitVal a, hexDigitVal b with
  | none, _ => 0
  | some x, none => x
  | some x, some y => 16 * x + y

/-- `hexToBytes` (transaction.ts) for even-length hex strings: each
digit pair becomes one byte. -/
def hexToBytes : JStr → List Nat
  | a :: b :: rest => hexPairVal a b :: hexToBytes rest
  | _ => []

/-- Lower-case hex digit character for `n < 16`. -/
def hexDigitChar (n : Nat) : Char :=
  if n < 10 then Char.ofNat ('0'.toNat + n) else Char.ofNat ('a'.toNat + n - 10)

/-- `bytesToHex` (transaction.ts): two lower-case hex digits per byte. -/
def bytesToHex (bs : List Nat) : JStr :=
  bs.flatMap (fun b => [hexDigitChar (b / 16), hexDigitChar (b % 16)])

/-! ## SHA-256 (noble-hashes `sha256`, called from crypto.ts) -/

/-- 32-bit truncation. -/
def m32 (x : Nat) : Nat := x % 4294967296

/-- 32-bit right-rotate. -/
def rotr32 (n x : Nat) : Nat := m32 (x / 2 ^ n + x % 2 ^ n * 2 ^ (32 - n))

/-- Bitwise exclusive or on `Nat`. -/
def nxor (a b : Nat) : Nat := Nat.xor a b

/-- SHA-256 round constants, eight rounds per group. -/
def sha256K : List Nat :=
  [0x428a2f98, 0x71374491, 0xb5c0fbcf, 0xe9b5dba5,
   0x3956c25b, 0x59f111f1, 0x923f82a4, 0xab1c5ed5] ++
  [0xd807aa98, 0x12835b01, 0x243185be, 0x550c7dc3,
   0x72be5d74, 0x80deb1fe, 0x9bdc06a7, 0xc19bf174] ++
  [0xe49b69c1, 0xefbe4786, 0x0fc19dc6, 0x240ca1cc,
   0x2de92c6f, 0x4a7484aa, 0x5cb0a9dc, 0x76f988da] ++
  [0x983e5152, 0xa831c66d, 0xb00327c8, 0xbf597fc7,
   0xc6e00bf3, 0xd5a79147, 0x06ca6351, 0x14292967] ++
  [0x27b70a85, 0x2e1b2138, 0x4d2c6dfc, 0x53380d13,
   0x650a7354, 0x766a0abb, 0x81c2c92e, 0x92722c85] ++
  [0xa2bfe8a1, 0xa81a664b, 0xc24b8b70, 0xc76c51a3,
   0xd192e819, 0xd6990624, 0xf40e3585, 0x106aa070] ++
  [0x19a4c116, 0x1e376c08, 0x2748774c, 0x34b0bcb5,
   0x391c0cb3, 0x4ed8aa4a, 0x5b9cca4f, 0x682e6ff3] ++
  [0x748f82ee, 0x78a5636f, 0x84c87814, 0x8cc70208,
   0x90befffa, 0xa4506ceb, 0xbef9a3f7, 0xc67178f2]

/-- SHA-256 state: eight 32-bit words. -/
structure Sha256State where
  a : Nat
  b : Nat
  c : Nat
  d : Nat
  e : Nat
  f : Nat
  g : Nat
  h : Nat

/-- Big-endian 32-bit words from bytes (4 bytes per word). -/
def bytesToWordsBE : List Nat → List Nat
  | b0 :: b1 :: b2 :: b3 :: rest =>
      (b0 * 16777216 + b1 * 65536 + b2 * 256 + b3) :: bytesToWordsBE rest
  | _ => []

/-- Big-endian 8-byte store of `n`. -/
def be8 (n : Nat) : List Nat :=
  [n / 2 ^ 56 % 256, n / 2 ^ 48 % 256, n / 2 ^ 40 % 256, n / 2 ^ 32 % 256,
   n / 2 ^ 24 % 256, n / 2 ^ 16 % 256, n / 2 ^ 8 % 256, n % 256]

/-- SHA-256 message padding: `0x80`, zeros, 64-bit big-endian length. -/
def sha256Pad (msg : List Nat) : List Nat :=
  let padZeros := (64 - (msg.length + 9) % 64) % 64
  msg ++ 0x80 :: List.replicate padZeros 0 ++ be8 (8 * msg.length)

/-- Message-schedule extension: append one word derived from the last 16. -/
def sha256ExtendStep (ws : List Nat) : List Nat :=
  let n := ws.length
  let s0 :=
    nxor (rotr32 7 (ws.getD (n - 15) 0))
      (nxor (rotr32 18 (ws.getD (n - 15) 0)) (ws.getD (n - 15) 0 / 2 ^ 3))
  let s1 :=
    nxor (rotr32 17 (ws.getD (n - 2) 0))
      (nxor (rotr32 19 (ws.getD (n - 2) 0)) (ws.getD (n - 2) 0 / 2 ^ 10))
  ws ++ [m32 (ws.getD (n - 16) 0 + s0 + ws.getD (n - 7) 0 + s1)]

/-- Iterate the schedule extension. -/
def sha256Extend : Nat → List Nat → List Nat
  | 0, ws => ws
  | k + 1, ws => sha256Extend k (sha256ExtendStep ws)

/-- One SHA-256 compression round. -/
def sha256Round (st : Sha256State) (kw : Nat × Nat) : Sha256State :=
  let S1 := nxor (rotr32 6 st.e) (nxor (rotr32 11 st.e) (rotr32 25 st.e))
  let ch := nxor (Nat.land st.e st.f) (Nat.land (nxor st.e 4294967295) st.g)
  let t1 := m32 (st.h + S1 + ch + kw.1 + kw.2)
  let S0 := nxor (rotr32 2 st.a) (nxor (rotr32 13 st.a) (rotr32 22 st.a))
  let mj :=
    nxor (Nat.land st.a st.b) (nxor (Nat.land st.a st.c) (Nat.land st.b st.c))
  let t2 := m32 (S0 + mj)
  { a := m32 (t1 + t2), b := st.a, c := st.b, d := st.c,
    e := m32 (st.d + t1), f := st.e, g := st.f, h := st.g }

/-- Process one 64-byte block into the running hash (8 words). -/
def sha256Block (hs : List Nat) (block : List Nat) : List Nat :=
  let ws := sha256Extend 48 (bytesToWordsBE block)
  let st0 : Sha256State :=
    { a := hs.getD 0 0, b := hs.getD 1 0, c := hs.getD 2 0, d := hs.getD 3 0,
      e := hs.getD 4 0, f := hs.getD 5 0, g := hs.getD 6 0, h := hs.getD 7 0 }
  let st := (ws.zip sha256K).foldl sha256Round st0
  [m32 (hs.getD 0 0 + st.a), m32 (hs.getD 1 0 + st.b),
   m32 (hs.getD 2 0 + st.c), m32 (hs.getD 3 0 + st.d),
   m32 (hs.getD 4 0 + st.e), m32 (hs.getD 5 0 + st.f),
   m32 (hs.getD 6 0 + st.g), m32 (hs.getD 7 0 + st.h)]

/-- Fold over 64-byte blocks. -/
def sha256Blocks (hs : List Nat) (padded : List Nat) : List Nat :=
  if padded.length < 64 then hs
  else sha256Blocks (sha256Block hs (padded.take 64)) (padded.drop 64)
termination_by padded.length
decreasing_by
  simp only [List.length_drop]
  omega

/-- Big-endian 4-byte store of a 32-bit word. -/
def be4 (n : Nat) : List Nat :=
  [n / 16777216 % 256, n / 65536 % 256, n / 256 % 256, n % 256]

/-- SHA-256 of a byte list. -/
def sha256 (msg : List Nat) : List Nat :=
  let hs := sha256Blocks
    ([0x6a09e667, 0xbb67ae85, 0x3c6ef372, 0xa54ff53a] ++
     [0x510e527f, 0x9b05688c, 0x1f83d9ab, 0x5be0cd19]) (sha256Pad msg)
  hs.flatMap be4

/-- `doubleSha256` (crypto.ts): `sha256(sha256(data))`. -/
def doubleSha256 (data : List Nat) : List Nat := sha256 (sha256 data)

/-! ## RIPEMD-160 (noble-hashes `ripemd160`, called from crypto.ts) -/

/-- 32-bit left-rotate. -/
def rotl32 (n x : Nat) : Nat := m32 (x % 2 ^ (32 - n) * 2 ^ n + x / 2 ^ (32 - n))

/-- RIPEMD-160 message-word order, left line. -/
def rmdRL : List Nat :=
  [0, 1, 2, 3, 4, 5, 6, 7, 8, 9, 10, 11, 12, 13, 14, 15,
   7, 4, 13, 1, 10, 6, 15, 3, 12, 0, 9, 5, 2, 14, 11, 8,
   3, 10, 14, 4, 9, 15, 8, 1, 2, 7, 0, 6, 13, 11, 5, 12,
   1, 9, 11, 10, 0, 8, 12, 4, 13, 3, 7, 15, 14, 5, 6, 2,
   4, 0, 5, 9, 7, 12, 2, 10, 14, 1, 3, 8, 11, 6, 15, 13]

/-- RIPEMD-160 message-word order, right line. -/
def rmdRR : List Nat :=
  [5, 14, 7, 0, 9, 2, 11, 4, 13, 6, 15, 8, 1, 10, 3, 12,
   6, 11, 3, 7, 0, 13, 5, 10, 14, 15, 8, 12, 4, 9, 1, 2,
   15, 5, 1, 3, 7, 14, 6, 9, 11, 8, 12, 2, 10, 0, 4, 13,
   8, 6, 4, 1, 3, 11, 15, 0, 5, 12, 2, 13, 9, 7, 10, 14,
   12, 15, 10, 4, 1, 5, 8, 7, 6, 2, 13, 14, 0, 3, 9, 11]

/-- RIPEMD-160 rotation amounts, left line. -/
def rmdSL : List Nat :=
  [11, 14, 15, 12, 5, 8, 7, 9, 11, 13, 14, 15, 6, 7, 9, 8,
   7, 6, 8, 13, 11, 9, 7, 15, 7, 12, 15, 9, 11, 7, 13, 12,
   11, 13, 6, 7, 14, 9, 13, 15, 14, 8, 13, 6, 5, 12, 7, 5,
   11, 12, 14, 15, 14, 15, 9, 8, 9, 14, 5, 6, 8, 6, 5, 12,
   9, 15, 5, 11, 6, 8, 13, 12, 5, 12, 13, 14, 11, 8, 5, 6]

/-- RIPEMD-160 rotation amounts, right line. -/
def rmdSR : List Nat :=
  [8, 9, 9, 11, 13, 15, 15, 5, 7, 7, 8, 11, 14, 14, 12, 6,
   9, 13, 15, 7, 12, 8, 9, 11, 7, 7, 12, 7, 6, 15, 13, 11,
   9, 7, 15, 11, 8, 6, 6, 14, 12, 13, 5, 14, 13, 13, 7, 5,
   15, 5, 8, 11, 14, 14, 6, 14, 6, 9, 12, 9, 12, 5, 15, 8,
   8, 5, 12, 9, 12, 5, 14, 6, 8, 13, 6, 5, 15, 13, 11, 11]

/-- RIPEMD-160 boolean functions `f1 … f5` selected by round. -/
def rmdF (j x y z : Nat) : Nat :=
  if j < 16 then nxor x (nxor y z)
  else if j < 32 then Nat.lor (Nat.land x y) (Nat.land (nxor x 4294967295) z)
  else if j < 48 then nxor (Nat.lor x (nxor y 4294967295)) z
  else if j < 64 then Nat.lor (Nat.land x z) (Nat.land y (nxor z 4294967295))
  else nxor x (Nat.lor y (nxor z 4294967295))

/-- RIPEMD-160 additive constants, left line, by round. -/
def rmdKL (j : Nat) : Nat :=
  if j < 16 then 0 else if j < 32 then 0x5a827999
  else if j < 48 then 0x6ed9eba1 else if j < 64 then 0x8f1bbcdc
  else 0xa953fd4e

/-- RIPEMD-160 additive constants, right line, by round. -/
def rmdKR (j : Nat) : Nat :=
  if j < 16 then 0x50a28be6 else if j < 32 then 0x5c4dd124
  else if j < 48 then 0x6d703ef3 else if j < 64 then 0x7a6d76e9
  else 0

/-- Five-word line state for RIPEMD-160. -/
structure RmdState where
  a : Nat
  b : Nat
  c : Nat
  d : Nat
  e : Nat

/-- One RIPEMD-160 step of one line (`f` already selected for `j`). -/
def rmdStep (x : List Nat) (useLeft : Bool) (st : RmdState) (j : Nat) :
    RmdState :=
  let r := if useLeft then rmdRL.getD j 0 else rmdRR.getD j 0
  let s := if useLeft then rmdSL.getD j 0 else rmdSR.getD j 0
  let k := if useLeft then rmdKL j else rmdKR j
  let f := if useLeft then rmdF j st.b st.c st.d
           else rmdF (79 - j) st.b st.c st.d
  let t := m32 (rotl32 s (m32 (st.a + f + x.getD r 0 + k)) + st.e)
  { a := st.e, b := t, c := st.b, d := rotl32 10 st.c, e := st.d }

/-- Little-endian 32-bit words from bytes. -/
def bytesToWordsLE : List Nat → List Nat
  | b0 :: b1 :: b2 :: b3 :: rest =>
      (b0 + b1 * 256 + b2 * 65536 + b3 * 16777216) :: bytesToWordsLE rest
  | _ => []

/-- Little-endian 8-byte store of `n`. -/
def le8full (n : Nat) : List Nat :=
  [n % 256, n / 2 ^ 8 % 256, n / 2 ^ 16 % 256, n / 2 ^ 24 % 256,
   n / 2 ^ 32 % 256, n / 2 ^ 40 % 256, n / 2 ^ 48 % 256, n / 2 ^ 56 % 256]

/-- RIPEMD-160 padding (little-endian length). -/
def rmdPad (msg : List Nat) : List Nat :=
  let padZeros := (64 - (msg.length + 9) % 64) % 64
  msg ++ 0x80 :: List.replicate padZeros 0 ++ le8full (8 * msg.length)

/-- Process one 64-byte block of RIPEMD-160. -/
def rmdBlock (hs : List Nat) (block : List Nat) : List Nat :=
  let x := bytesToWordsLE block
  let st0 : RmdState :=
    { a := hs.getD 0 0, b := hs.getD 1 0, c := hs.getD 2 0,
      d := hs.getD 3 0, e := hs.getD 4 0 }
  let l := (List.range 80).foldl (rmdStep x true) st0
  let r := (List.range 80).foldl (rmdStep x false) st0
  [m32 (hs.getD 1 0 + l.c + r.d), m32 (hs.getD 2 0 + l.d + r.e),
   m32 (hs.getD 3 0 + l.e + r.a), m32 (hs.getD 4 0 + l.a + r.b),
   m32 (hs.getD 0 0 + l.b + r.c)]

/-- Fold RIPEMD-160 over 64-byte blocks. -/
def rmdBlocks (hs : List Nat) (padded : List Nat) : List Nat :=
  if padded.length < 64 then hs
  else rmdBlocks (rmdBlock hs (padded.take 64)) (padded.drop 64)
termination_by padded.length
decreasing_by
  simp only [List.length_drop]
  omega

/-- Little-endian 4-byte store of a 32-bit word. -/
def le4w (n : Nat) : List Nat :=
  [n % 256, n / 256 % 256, n / 65536 % 256, n / 16777216 % 256]

/-- RIPEMD-160 of a byte list. -/
def ripemd160 (msg : List Nat) : List Nat :=
  let hs := rmdBlocks
    [0x67452301, 0xefcdab89, 0x98badcfe, 0x10325476, 0xc3d2e1f0]
    (rmdPad msg)
  hs.flatMap le4w

/-- `hash160` (crypto.ts): `ripemd160(sha256(data))`. -/
def hash160 (data : List Nat) : List Nat := ripemd160 (sha256 data)

/-! ## secp256k1 compressed public key (noble-secp256k1 `getPublicKey`) -/

/-- secp256k1 field prime. -/
def secpP : Nat :=
  0xfffffffffffffffffffffffffffffffffffffffffffffffffffffffefffffc2f

/-- secp256k1 group order. -/
def secpN : Nat :=
  0xfffffffffffffffffffffffffffffffffffffffffffffffebaaedce6af48a03bbfd25e8cd0364141

/-- Modular exponentiation by squaring (fuelled; one unit of fuel per
halving of the exponent, so the exponent itself always suffices). -/
def powModF : Nat → Nat → Nat → Nat → Nat
  | 0, _, _, m => 1 % m
  | fuel + 1, a, e, m =>
    if e = 0 then 1 % m
    else
      let h := powModF fuel (a * a % m) (e / 2) m
      if e % 2 = 1 then a % m * h % m else h

/-- Modular exponentiation by squaring. -/
def powMod (a e m : Nat) : Nat := powModF e a e m

/-- Modular inverse by Fermat (prime modulus). -/
def fieldInv (a : Nat) : Nat := powMod a (secpP - 2) secpP

/-- Affine point or infinity. -/
inductive ECPoint where
  | inf : ECPoint
  | pt (x y : Nat) : ECPoint
deriving DecidableEq

/-- Point doubling on `y² = x³ + 7` over `F_p`. -/
def ecDouble : ECPoint → ECPoint
  | .inf => .inf
  | .pt x y =>
    if y = 0 then .inf else
    let l := 3 * x * x % secpP * fieldInv (2 * y % secpP) % secpP
    let xr := (l * l + 2 * secpP * secpP - 2 * x) % secpP
    let yr := (l * ((x + secpP - xr) % secpP) % secpP + secpP - y % secpP) % secpP
    .pt xr yr

/-- Point addition. -/
def ecAdd : ECPoint → ECPoint → ECPoint
  | .inf, q => q
  | p, .inf => p
  | .pt x1 y1, .pt x2 y2 =>
    if x1 = x2 then
      (if y1 = y2 then ecDouble (.pt x1 y1) else .inf)
    else
      let l := ((y2 + secpP - y1) % secpP) *
        fieldInv ((x2 + secpP - x1) % secpP) % secpP
      let xr := (l * l + 2 * secpP * secpP - x1 - x2) % secpP
      let yr := (l * ((x1 + secpP - xr) % secpP) % secpP + secpP - y1 % secpP) % secpP
      .pt xr yr

/-- Double-and-add scalar multiplication (fuelled; the scalar itself
always provides enough fuel). -/
def ecMulF : Nat → Nat → ECPoint → ECPoint
  | 0, _, _ => .inf
  | fuel + 1, d, p =>
    if d = 0 then .inf
    else
      let half := ecMulF fuel (d / 2) (ecDouble p)
      if d % 2 = 1 then ecAdd p half else half

/-- Double-and-add scalar multiplication. -/
def ecMul (d : Nat) (p : ECPoint) : ECPoint := ecMulF d d p

/-- secp256k1 base point. -/
def secpG : ECPoint :=
  .pt 0x79be667ef9dcbbac55a06295ce870b07029bfcdb2dce28d959f2815b16f81798
      0x483ada7726a3c4655da4fbfc0e1108a8fd17b448a68554199c47d08ffb10d4b8

/-- Big-endian 32-byte store of `n`. -/
def be32bytes (n : Nat) : List Nat :=
  (List.range 32).map (fun i => n / 2 ^ (8 * (31 - i)) % 256)

/-- `secp256k1.getPublicKey(privateKey, true)`: compressed SEC encoding
of `d·G`; noble throws when the scalar is outside `[1, n-1]`. -/
def getPublicKey (d : Nat) : Except String (List Nat) :=
  if d = 0 ∨ secpN ≤ d then .error "invalid private key"
  else
    match ecMul d secpG with
    | .inf => .error "invalid private key"
    | .pt x y => .ok ((if y % 2 = 0 then 0x02 else 0x03) :: be32bytes x)

/-! ## Bech32 (scure-base `bech32`, called from transaction.ts / crypto.ts) -/

/-- The bech32 data-character set. -/
def bech32Charset : JStr := "qpzry9x8gf2tvdw0s3jn54khce6mua7l".toList

/-- Index of a character in the charset (`CHARSET.indexOf`). -/
def bech32CharVal (c : Char) : Option Nat :=
  List.findIdx? (fun x => x = c) bech32Charset

/-- One step of the bech32 polymod checksum. -/
def polymodStep (pre : Nat) : Nat :=
  let b := pre / 2 ^ 25
  List.foldl nxor (pre % 2 ^ 25 * 32)
    [if b % 2 = 1 then 0x3b6a57b2 else 0,
     if b / 2 % 2 = 1 then 0x26508e6d else 0,
     if b / 4 % 2 = 1 then 0x1ea119fa else 0,
     if b / 8 % 2 = 1 then 0x3d4233dd else 0,
     if b / 16 % 2 = 1 then 0x2a1462b3 else 0]

/-- scure-base `bechChecksum`: the 6 checksum characters for a prefix,
payload words and encoding constant (1 for bech32, 0x2bc830a3 for
bech32m). -/
def bechChecksum (hrp : JStr) (words : List Nat) (econst : Nat) : JStr :=
  let chk1 := hrp.foldl (fun chk c => nxor (polymodStep chk) (c.toNat / 32)) 1
  let chk2 :=
    hrp.foldl (fun chk c => nxor (polymodStep chk) (c.toNat % 32))
      (polymodStep chk1)
  let chk3 := words.foldl (fun chk v => nxor (polymodStep chk) v) chk2
  let chk4 := polymodStep (polymodStep (polymodStep
    (polymodStep (polymodStep (polymodStep chk3)))))
  let chk := nxor chk4 econst
  (List.range 6).map (fun i => bech32Charset.getD (chk / 2 ^ (5 * (5 - i)) % 32) 'q')

/-- JS `toLowerCase`, restricted to ASCII letters (the only case-bearing
characters appearing in addresses). -/
def jsToLower (s : JStr) : JStr :=
  s.map (fun c => if 'A' ≤ c ∧ c ≤ 'Z' then Char.ofNat (c.toNat + 32) else c)

/-- JS `toUpperCase`, restricted to ASCII letters. -/
def jsToUpper (s : JStr) : JStr :=
  s.map (fun c => if 'a' ≤ c ∧ c ≤ 'z' then Char.ofNat (c.toNat - 32) else c)

/-- JS `lastIndexOf` for a single character. -/
def lastIndexOf (c : Char) (s : JStr) : Option Nat :=
  (List.findIdx? (fun x => x = c) s.reverse).map (fun i => s.length - 1 - i)

/-- scure-base `bech32.decode` (with `econst = 1`) and `bech32m.decode`
(`econst = 0x2bc830a3`): length bounds, case check, split at the last
`'1'`, charset mapping, checksum verification.  Returns the prefix and
the data words with the 6 checksum words removed. -/
def bech32DecodeWith (econst : Nat) (str : JStr) :
    Except String (JStr × List Nat) :=
  if str.length < 8 ∨ str.length > 90 then
    .error "Wrong string length"
  else if str ≠ jsToLower str ∧ str ≠ jsToUpper str then
    .error "String must be lowercase or uppercase"
  else
    let low := jsToLower str
    match lastIndexOf '1' low with
    | none => .error "Letter 1 must be present"
    | some 0 => .error "Letter 1 must be present between prefix and data only"
    | some sep =>
      let hrp := low.take sep
      let data := low.drop (sep + 1)
      if data.length < 6 then .error "Data must be at least 6 characters long"
      else
        match data.mapM bech32CharVal with
        | none => .error "Unknown letter"
        | some words =>
          let sum := bechChecksum hrp (words.take (words.length - 6)) econst
          if data.drop (data.length - 6) ≠ sum then .error "Invalid checksum"
          else .ok (hrp, words.take (words.length - 6))

/-- scure-base `bech32.fromWords` helper: regroup 5-bit words into
8-bit bytes with strict padding checks (`convertRadix2(…, 5, 8, false)`).
`carry` always holds the low `pos` bits gathered so far. -/
def fromWordsAux : List Nat → Nat → Nat → Except String (List Nat)
  | [], carry, pos =>
      if 5 ≤ pos then .error "Excess padding"
      else if carry ≠ 0 then .error "Non-zero padding"
      else .ok []
  | n :: rest, carry, pos =>
      if 32 ≤ n then .error "Invalid bech32 word"
      else
        let c := carry * 32 + n
        let p := pos + 5
        if 8 ≤ p then
          match fromWordsAux rest (c % 2 ^ (p - 8)) (p - 8) with
          | .error e => .error e
          | .ok tail => .ok (c / 2 ^ (p - 8) % 256 :: tail)
        else fromWordsAux rest c p

/-- scure-base `bech32.fromWords`. -/
def fromWords (ws : List Nat) : Except String (List Nat) :=
  fromWordsAux ws 0 0

/-! ## `addressToScriptPubKey` and `isValidAddress` -/

/-- `NetworkType` (`'mainnet' | 'testnet'`). -/
inductive Network where
  | mainnet : Network
  | testnet : Network
deriving DecidableEq

/-- Address prefix for a network (`'bc'` / `'tb'`). -/
def netHrp : Network → JStr
  | .mainnet => "bc".toList
  | .testnet => "tb".toList

/-- `addressToScriptPubKey` (transaction.ts): P2WPKH gives
`witnessVersion ‖ programLength ‖ program` in a fixed 22-byte array,
P2TR gives `0x51 ‖ programLength ‖ program` in a fixed 34-byte array;
the code decodes both branches with plain bech32 (`econst = 1`).
A program longer than the fixed array throws (`Uint8Array.set` range
error); a shorter one leaves trailing zero bytes, as in JS. -/
def addressToScriptPubKey (address : JStr) (network : Network) :
    Except String (List Nat) :=
  let hrp := netHrp network
  if (hrp ++ ['1', 'q']).isPrefixOf address then
    match bech32DecodeWith 1 address with
    | .error e => .error e
    | .ok (_, words) =>
      match fromWords (words.drop 1) with
      | .error e => .error e
      | .ok witnessProgram =>
        if 20 < witnessProgram.length then .error "offset is out of bounds"
        else .ok (words.getD 0 0 :: witnessProgram.length ::
          (witnessProgram ++ List.replicate (20 - witnessProgram.length) 0))
  else if (hrp ++ ['1', 'p']).isPrefixOf address then
    match bech32DecodeWith 1 address with
    | .error e => .error e
    | .ok (_, words) =>
      match fromWords (words.drop 1) with
      | .error e => .error e
      | .ok witnessProgram =>
        if 32 < witnessProgram.length then .error "offset is out of bounds"
        else .ok (0x51 :: witnessProgram.length ::
          (witnessProgram ++ List.replicate (32 - witnessProgram.length) 0))
  else .error "Unsupported address format"

/-- `isValidAddress` (crypto.ts). -/
def isValidAddress (address : JStr) : Bool :=
  if address = [] then false
  else if "bc1q".toList.isPrefixOf address ∨ "tb1q".toList.isPrefixOf address then
    match bech32DecodeWith 1 address with
    | .ok (_, words) => decide (1 ≤ words.length ∧ words.getD 0 0 = 0)
    | .error _ => false
  else if "bc1p".toList.isPrefixOf address ∨ "tb1p".toList.isPrefixOf address then
    decide (address.length = 62)
  else if "1".toList.isPrefixOf address ∨ "3".toList.isPrefixOf address then
    decide (26 ≤ address.length ∧ address.length ≤ 35)
  else if "m".toList.isPrefixOf address ∨ "n".toList.isPrefixOf address
      ∨ "2".toList.isPrefixOf address then
    decide (26 ≤ address.length ∧ address.length ≤ 35)
  else false

/-! ## Transaction builder and signer (transaction.ts) -/

/-- `TxInput` (transaction.ts). -/
structure TxInput where
  txid : JStr
  vout : Nat
  value : Nat
deriving DecidableEq

/-- `TxOutput` (transaction.ts). -/
structure TxOutput where
  address : JStr
  value : Nat
deriving DecidableEq

/-- `UnsignedTransaction` (transaction.ts). -/
structure UnsignedTransaction where
  version : Nat
  inputs : List TxInput
  outputs : List TxOutput
  locktime : Nat
  network : Network
deriving DecidableEq

/-- `buildTransaction` (transaction.ts): fixed version 2, locktime 0. -/
def buildTransaction (inputs : List TxInput) (outputs : List TxOutput)
    (network : Network) : UnsignedTransaction :=
  { version := 2, inputs := inputs, outputs := outputs,
    locktime := 0, network := network }

/-- The 36-byte prevout segment of one input: reversed txid bytes and
little-endian vout (`prevoutsData` construction in `signTransaction`). -/
def prevoutSegment (i : TxInput) : List Nat :=
  (hexToBytes i.txid).reverse ++ uint32ToLE i.vout

/-- `prevoutsData` of `signTransaction`: all prevout segments in input
order. -/
def prevoutsData (tx : UnsignedTransaction) : List Nat :=
  tx.inputs.flatMap prevoutSegment

/-- `sequenceData` of `signTransaction`: `LE4(0xffffffff)` once per
input. -/
def sequenceData (tx : UnsignedTransaction) : List Nat :=
  tx.inputs.flatMap (fun _ => uint32ToLE 0xffffffff)

/-- The `outputsBuffer` of `signTransaction`: per output, 8-byte LE
value, one script-length byte, then the scriptPubKey; fails when an
output address is unsupported. -/
def outputsData (outputs : List TxOutput) (network : Network) :
    Except String (List Nat) :=
  match outputs with
  | [] => .ok []
  | o :: rest =>
    match addressToScriptPubKey o.address network with
    | .error e => .error e
    | .ok scriptPubKey =>
      match outputsData rest network with
      | .error e => .error e
      | .ok tail =>
        .ok (uint64ToLE o.value ++ scriptPubKey.length :: scriptPubKey ++ tail)

/-- `buildBIP143Preimage` (transaction.ts): the exact byte pushes of the
source, in order.  (The 25-byte `scriptCode` array built before the
pushes in the source is dead code; the pushes emit the length byte
`0x19` followed by the 25 script bytes.) -/
def buildBIP143Preimage (version : Nat) (hashPrevouts hashSequence : List Nat)
    (txid : JStr) (vout : Nat) (pubKeyHash : List Nat) (value sequence : Nat)
    (hashOutputs : List Nat) (locktime : Nat) : List Nat :=
  uint32ToLE version ++
  hashPrevouts ++
  hashSequence ++
  (hexToBytes txid).reverse ++
  uint32ToLE vout ++
  (0x19 :: 0x76 :: 0xa9 :: 0x14 :: pubKeyHash ++ [0x88, 0xac]) ++
  uint64ToLE value ++
  uint32ToLE sequence ++
  hashOutputs ++
  uint32ToLE locktime ++
  uint32ToLE 0x01

/-- The BIP-143 preimages `signTransaction` computes, one per input in
input order (`preimages` array of the source).  Everything before the
per-input loop — public-key derivation, `hash160`, the three interim
hashes — is embedded exactly; the ECDSA signing that follows does not
affect the preimages. -/
def signPreimages (tx : UnsignedTransaction) (privateKey : Nat) :
    Except String (List (List Nat)) :=
  match getPublicKey privateKey with
  | .error e => .error e
  | .ok publicKey =>
    let pubKeyHash := hash160 publicKey
    let hashPrevouts := doubleSha256 (prevoutsData tx)
    let hashSequence := doubleSha256 (sequenceData tx)
    match outputsData tx.outputs tx.network with
    | .error e => .error e
    | .ok outBytes =>
      let hashOutputs := doubleSha256 outBytes
      .ok (tx.inputs.map (fun input =>
        buildBIP143Preimage tx.version hashPrevouts hashSequence
          input.txid input.vout pubKeyHash input.value 0xffffffff
          hashOutputs tx.locktime))

/-- The output section of `serializeTransaction`: per output, 8-byte LE
value, varint script length, scriptPubKey. -/
def outputsSerialized (outputs : List TxOutput) (network : Network) :
    Except String (List Nat) :=
  match outputs with
  | [] => .ok []
  | o :: rest =>
    match addressToScriptPubKey o.address network with
    | .error e => .error e
    | .ok scriptPubKey =>
      match outputsSerialized rest network with
      | .error e => .error e
      | .ok tail =>
        .ok (uint64ToLE o.value ++ encodeVarInt scriptPubKey.length ++
          scriptPubKey ++ tail)

/-- `serializeTransaction` (transaction.ts): final witness-transaction
serialization, returned as lower-case hex. -/
def serializeTransaction (tx : UnsignedTransaction)
    (witnesses : List (List (List Nat))) : Except String JStr :=
  match outputsSerialized tx.outputs tx.network with
  | .error e => .error e
  | .ok outBytes =>
    .ok (bytesToHex (
      uint32ToLE tx.version ++
      [0x00, 0x01] ++
      encodeVarInt tx.inputs.length ++
      tx.inputs.flatMap (fun input =>
        (hexToBytes input.txid).reverse ++ uint32ToLE input.vout ++
        [0x00] ++ uint32ToLE 0xffffffff) ++
      encodeVarInt tx.outputs.length ++
      outBytes ++
      witnesses.flatMap (fun witness =>
        encodeVarInt witness.length ++
        witness.flatMap (fun item => encodeVarInt item.length ++ item)) ++
      uint32ToLE tx.locktime))

/-! ## Coin selection (bitcoinService.ts `selectUTXOs`) -/

/-- `UTXO` (types.ts). -/
structure UTXO where
  txid : JStr
  vout : Nat
  value : Nat
  scriptPubKey : JStr
  confirmations : Nat
deriving DecidableEq

/-- `DUST_LIMIT` (constants). -/
def DUST_LIMIT : Nat := 546

/-- Virtual size used by `selectUTXOs`:
`Math.ceil(TX_OVERHEAD + inputs*68 + outputs*31)` with
`TX_OVERHEAD = 10.5`.  Since the input/output terms are integers, the
ceiling equals `68*inputs + 31*outputs + 11`; `txVBytes_eq_ceil` below
ties this to the rational-ceiling formula. -/
def txVBytes (inputCount outputCount : Nat) : Nat :=
  68 * inputCount + 31 * outputCount + 11

/-- Result record of `selectUTXOs`. -/
structure SelectResult where
  selectedUTXOs : List UTXO
  fee : Nat
  change : Nat
deriving DecidableEq

/-- The selection loop of `selectUTXOs`, walking the sorted UTXO list
and carrying the selected list and running input total.  Mirrors the
source: after adding each UTXO it computes the fee for the current
input count with two outputs (`hasChange = true`), and returns as soon
as `totalInput - targetAmount - fee ≥ 0`, folding sub-dust change into
the fee. -/
def selectLoop (targetAmount feeRate : Nat) :
    List UTXO → List UTXO → Nat → Option SelectResult
  | [], _, _ => none
  | utxo :: rest, selected, totalInput =>
    let selected := selected ++ [utxo]
    let totalInput := totalInput + utxo.value
    let fee := feeRate * txVBytes selected.length 2
    let change : Int := (totalInput : Int) - targetAmount - fee
    if 0 ≤ change then
      if change < DUST_LIMIT then
        some { selectedUTXOs := selected, fee := fee + change.toNat, change := 0 }
      else
        some { selectedUTXOs := selected, fee := fee, change := change.toNat }
    else selectLoop targetAmount feeRate rest selected totalInput

/-- Sort order of `selectUTXOs`: `(a, b) => b.value - a.value`,
i.e. descending by value; JS `Array.prototype.sort` is stable, as is
`List.insertionSort`. -/
def sortDescByValue (utxos : List UTXO) : List UTXO :=
  List.insertionSort (fun a b => b.value ≤ a.value) utxos

/-- `selectUTXOs` (bitcoinService.ts). -/
def selectUTXOs (utxos : List UTXO) (targetAmount feeRate : Nat) :
    Option SelectResult :=
  selectLoop targetAmount feeRate (sortDescByValue utxos) [] 0

/-! ## PSBT-lite interchange codec (psbt.ts)

The codec is `base64(UTF-8(JSON.stringify(payload)))`.  The JSON,
UTF-8 and base64 layers are external libraries (`JSON`, `TextEncoder`,
scure-base `base64`); they are modelled concretely below:
`JSON.stringify` by a canonical serializer producing exactly the JS
output for the payload shapes involved (insertion-order keys, no
whitespace, standard string escapes), `JSON.parse` by a
recursive-descent parser for those shapes, and UTF-8/base64 by their
standard algorithms. -/

/-- `PSBTInput` (psbt.ts). -/
structure PSBTInput where
  txid : JStr
  vout : Nat
  value : Nat
  scriptPubKey : Option JStr
deriving DecidableEq

/-- `PSBTOutput` (psbt.ts). -/
structure PSBTOutput where
  address : JStr
  value : Nat
deriving DecidableEq

/-- `UnsignedPSBT` (psbt.ts).  `network` is carried as a string, as on
the JSON wire. -/
structure UnsignedPSBT where
  version : Nat
  inputs : List PSBTInput
  outputs : List PSBTOutput
  network : JStr
  fee : Nat
  changeIndex : Option Nat
deriving DecidableEq

/-- `SignedTransaction` (psbt.ts). -/
structure SignedTransaction where
  txHex : JStr
  txid : JStr
  network : JStr
deriving DecidableEq

/-- Decimal digit character. -/
def digitChar (n : Nat) : Char := Char.ofNat (48 + n)

/-- Decimal digits, fuelled (one unit of fuel per digit; `n + 1` always
suffices). -/
def natDigitsF : Nat → Nat → JStr
  | 0, _ => []
  | fuel + 1, n =>
    if n < 10 then [digitChar n]
    else natDigitsF fuel (n / 10) ++ [digitChar (n % 10)]

/-- Decimal representation of a natural number (JS number-to-string for
non-negative integers). -/
def natDigits (n : Nat) : JStr := natDigitsF (n + 1) n

/-- Numeric value of a digit string. -/
def natOfDigits (s : JStr) : Nat :=
  s.foldl (fun acc c => 10 * acc + (c.toNat - 48)) 0

/-- `JSON.stringify` escaping of one string character. -/
def escapeChar (c : Char) : JStr :=
  if c = '"' then ['\\', '"']
  else if c = '\\' then ['\\', '\\']
  else if c.toNat = 8 then ['\\', 'b']
  else if c.toNat = 9 then ['\\', 't']
  else if c.toNat = 10 then ['\\', 'n']
  else if c.toNat = 12 then ['\\', 'f']
  else if c.toNat = 13 then ['\\', 'r']
  else if c.toNat < 32 then
    '\\' :: 'u' :: '0' :: '0' ::
      hexDigitChar (c.toNat / 16) :: hexDigitChar (c.toNat % 16) :: []
  else [c]

/-- A JSON string literal: quote, escaped body, quote. -/
def jsonStr (s : JStr) : JStr := '"' :: s.flatMap escapeChar ++ ['"']

/-- JSON for one `PSBTInput` (key insertion order of the interface;
`scriptPubKey` omitted when absent, as `JSON.stringify` omits
`undefined` properties). -/
def stringifyInput (i : PSBTInput) : JStr :=
  "\x7b\"txid\":".toList ++ jsonStr i.txid ++
  ",\"vout\":".toList ++ natDigits i.vout ++
  ",\"value\":".toList ++ natDigits i.value ++
  (match i.scriptPubKey with
   | none => []
   | some s => ",\"scriptPubKey\":".toList ++ jsonStr s) ++
  "\x7d".toList

/-- JSON for one `PSBTOutput`. -/
def stringifyOutput (o : PSBTOutput) : JStr :=
  "\x7b\"address\":".toList ++ jsonStr o.address ++
  ",\"value\":".toList ++ natDigits o.value ++ "\x7d".toList

/-- Comma-joined item list (`Array.prototype.join(',')`). -/
def jsonItems : List JStr → JStr
  | [] => []
  | [x] => x
  | x :: y :: rest => x ++ ',' :: jsonItems (y :: rest)

/-- JSON array from serialized items. -/
def jsonArray (items : List JStr) : JStr :=
  '[' :: jsonItems items ++ [']']

/-- JSON for an `UnsignedPSBT` (field order of `createUnsignedPSBT`;
`changeIndex` omitted when absent). -/
def stringifyUnsigned (p : UnsignedPSBT) : JStr :=
  "\x7b\"version\":".toList ++ natDigits p.version ++
  ",\"inputs\":".toList ++ jsonArray (p.inputs.map stringifyInput) ++
  ",\"outputs\":".toList ++ jsonArray (p.outputs.map stringifyOutput) ++
  ",\"network\":".toList ++ jsonStr p.network ++
  ",\"fee\":".toList ++ natDigits p.fee ++
  (match p.changeIndex with
   | none => []
   | some k => ",\"changeIndex\":".toList ++ natDigits k) ++
  "\x7d".toList

/-- JSON for the `serializePSBT` payload wrapper
`{magic, version, data}`. -/
def stringifyPsbtPayload (magic : JStr) (version : Nat)
    (data : UnsignedPSBT) : JStr :=
  "\x7b\"magic\":".toList ++ jsonStr magic ++
  ",\"version\":".toList ++ natDigits version ++
  ",\"data\":".toList ++ stringifyUnsigned data ++ "\x7d".toList

/-- JSON for a `SignedTransaction` (field order of the interface). -/
def stringifySigned (s : SignedTransaction) : JStr :=
  "\x7b\"txHex\":".toList ++ jsonStr s.txHex ++
  ",\"txid\":".toList ++ jsonStr s.txid ++
  ",\"network\":".toList ++ jsonStr s.network ++ "\x7d".toList

/-- JSON for the `serializeSignedTx` payload wrapper. -/
def stringifySignedPayload (magic : JStr) (version : Nat)
    (data : SignedTransaction) : JStr :=
  "\x7b\"magic\":".toList ++ jsonStr magic ++
  ",\"version\":".toList ++ natDigits version ++
  ",\"data\":".toList ++ stringifySigned data ++ "\x7d".toList

/-! ### Recursive-descent parsers (model of `JSON.parse` on the payload
sublanguage) -/

/-- Consume an exact literal. -/
def parseLit : JStr → JStr → Option JStr
  | [], s => some s
  | c :: ls, d :: s => if c = d then parseLit ls s else none
  | _ :: _, [] => none

/-- Consume a decimal number. -/
def parseNat (s : JStr) : Option (Nat × JStr) :=
  let ds := s.takeWhile Char.isDigit
  if ds.isEmpty then none
  else some (natOfDigits ds, s.dropWhile Char.isDigit)

/-- Un-escaped character for a single-character JSON escape. -/
def unescapeChar (e : Char) : Option Char :=
  if e = '"' then some '"'
  else if e = '\\' then some '\\'
  else if e = '/' then some '/'
  else if e = 'b' then some (Char.ofNat 8)
  else if e = 't' then some (Char.ofNat 9)
  else if e = 'n' then some (Char.ofNat 10)
  else if e = 'f' then some (Char.ofNat 12)
  else if e = 'r' then some (Char.ofNat 13)
  else none

/-- Consume a JSON string body after the opening quote, un-escaping. -/
def parseStringBody : JStr → Option (JStr × JStr)
  | [] => none
  | c :: rest =>
    if c = '"' then some ([], rest)
    else if c = '\\' then
      match rest with
      | 'u' :: h1 :: h2 :: h3 :: h4 :: rest2 =>
        match hexDigitVal h1, hexDigitVal h2, hexDigitVal h3, hexDigitVal h4 with
        | some a, some b, some x, some d =>
          (parseStringBody rest2).map (fun r =>
            (Char.ofNat (4096 * a + 256 * b + 16 * x + d) :: r.1, r.2))
        | _, _, _, _ => none
      | e :: rest2 =>
        match unescapeChar e with
        | none => none
        | some x => (parseStringBody rest2).map (fun r => (x :: r.1, r.2))
      | [] => none
    else (parseStringBody rest).map (fun r => (c :: r.1, r.2))

/-- Consume a quoted JSON string. -/
def parseJString (s : JStr) : Option (JStr × JStr) :=
  match s with
  | '"' :: rest => parseStringBody rest
  | _ => none

/-- Consume the optional `scriptPubKey` field and the closing brace of
an input object. -/
def parseOptScriptPubKey (s : JStr) : Option (Option JStr × JStr) :=
  match parseLit "\x7d".toList s with
  | some s => some (none, s)
  | none => do
    let s ← parseLit ",\"scriptPubKey\":".toList s
    let (spk, s) ← parseJString s
    let s ← parseLit "\x7d".toList s
    some (some spk, s)

/-- Consume one input object. -/
def parseInput (s : JStr) : Option (PSBTInput × JStr) := do
  let s ← parseLit "\x7b\"txid\":".toList s
  let (txid, s) ← parseJString s
  let s ← parseLit ",\"vout\":".toList s
  let (vout, s) ← parseNat s
  let s ← parseLit ",\"value\":".toList s
  let (value, s) ← parseNat s
  let (spk, s) ← parseOptScriptPubKey s
  some ({ txid := txid, vout := vout, value := value,
          scriptPubKey := spk }, s)

/-- Consume one output object. -/
def parseOutput (s : JStr) : Option (PSBTOutput × JStr) := do
  let s ← parseLit "\x7b\"address\":".toList s
  let (address, s) ← parseJString s
  let s ← parseLit ",\"value\":".toList s
  let (value, s) ← parseNat s
  let s ← parseLit "\x7d".toList s
  some ({ address := address, value := value }, s)

/-- Comma-separated array elements up to the closing bracket (fuelled;
each element consumes at least one character). -/
def parseArrayAux (pe : JStr → Option (α × JStr)) :
    Nat → JStr → Option (List α × JStr)
  | 0, _ => none
  | fuel + 1, s => do
    let (x, s) ← pe s
    match s with
    | ',' :: s => do
      let (xs, s) ← parseArrayAux pe fuel s
      some (x :: xs, s)
    | ']' :: s => some ([x], s)
    | _ => none

/-- Consume a JSON array with the given element parser. -/
def parseArray (pe : JStr → Option (α × JStr)) (s : JStr) :
    Option (List α × JStr) :=
  match s with
  | '[' :: ']' :: s => some ([], s)
  | '[' :: s => parseArrayAux pe s.length s
  | _ => none

/-- Consume the inputs array. -/
def parseInputs (s : JStr) : Option (List PSBTInput × JStr) :=
  parseArray parseInput s

/-- Consume the outputs array. -/
def parseOutputs (s : JStr) : Option (List PSBTOutput × JStr) :=
  parseArray parseOutput s

/-- Consume the optional `changeIndex` field and the closing brace of
the unsigned-PSBT object. -/
def parseOptChangeIndex (s : JStr) : Option (Option Nat × JStr) :=
  match parseLit "\x7d".toList s with
  | some s => some (none, s)
  | none => do
    let s ← parseLit ",\"changeIndex\":".toList s
    let (k, s) ← parseNat s
    let s ← parseLit "\x7d".toList s
    some (some k, s)

/-- Consume an `UnsignedPSBT` object. -/
def parseUnsigned (s : JStr) : Option (UnsignedPSBT × JStr) := do
  let s ← parseLit "\x7b\"version\":".toList s
  let (version, s) ← parseNat s
  let s ← parseLit ",\"inputs\":".toList s
  let (inputs, s) ← parseInputs s
  let s ← parseLit ",\"outputs\":".toList s
  let (outputs, s) ← parseOutputs s
  let s ← parseLit ",\"network\":".toList s
  let (network, s) ← parseJString s
  let s ← parseLit ",\"fee\":".toList s
  let (fee, s) ← parseNat s
  let (changeIndex, s) ← parseOptChangeIndex s
  some ({ version := version, inputs := inputs, outputs := outputs,
          network := network, fee := fee, changeIndex := changeIndex }, s)

/-- Parse a whole `{magic, version, data}` PSBT payload document. -/
def parsePsbtPayload (s : JStr) : Option (JStr × Nat × UnsignedPSBT) := do
  let s ← parseLit "\x7b\"magic\":".toList s
  let (magic, s) ← parseJString s
  let s ← parseLit ",\"version\":".toList s
  let (version, s) ← parseNat s
  let s ← parseLit ",\"data\":".toList s
  let (data, s) ← parseUnsigned s
  let s ← parseLit "\x7d".toList s
  if s.isEmpty then some (magic, version, data) else none

/-- Consume a `SignedTransaction` object. -/
def parseSigned (s : JStr) : Option (SignedTransaction × JStr) := do
  let s ← parseLit "\x7b\"txHex\":".toList s
  let (txHex, s) ← parseJString s
  let s ← parseLit ",\"txid\":".toList s
  let (txid, s) ← parseJString s
  let s ← parseLit ",\"network\":".toList s
  let (network, s) ← parseJString s
  let s ← parseLit "\x7d".toList s
  some ({ txHex := txHex, txid := txid, network := network }, s)

/-- Parse a whole signed-transaction payload document. -/
def parseSignedPayload (s : JStr) : Option (JStr × Nat × SignedTransaction) := do
  let s ← parseLit "\x7b\"magic\":".toList s
  let (magic, s) ← parseJString s
  let s ← parseLit ",\"version\":".toList s
  let (version, s) ← parseNat s
  let s ← parseLit ",\"data\":".toList s
  let (data, s) ← parseSigned s
  let s ← parseLit "\x7d".toList s
  if s.isEmpty then some (magic, version, data) else none

/-! ### UTF-8 and base64 transport layers -/

/-- UTF-8 encoding of one code point (`TextEncoder`). -/
def utf8EncodeChar (n : Nat) : List Nat :=
  if n < 0x80 then [n]
  else if n < 0x800 then [0xc0 + n / 64, 0x80 + n % 64]
  else if n < 0x10000 then
    [0xe0 + n / 4096, 0x80 + n / 64 % 64, 0x80 + n % 64]
  else
    [0xf0 + n / 262144, 0x80 + n / 4096 % 64, 0x80 + n / 64 % 64, 0x80 + n % 64]

/-- `TextEncoder().encode`: UTF-8 bytes of a string. -/
def utf8Bytes (s : JStr) : List Nat :=
  s.flatMap (fun c => utf8EncodeChar c.toNat)

/-- Is a byte a UTF-8 continuation byte? -/
def utf8Cont (b : Nat) : Bool := decide (128 ≤ b ∧ b < 192)

/-- UTF-8 decoding to code points, fuelled (one unit of fuel per lead
byte; `utf8Decode` supplies the input length, which always suffices).
Only well-formed sequences are accepted; `TextDecoder` would substitute
U+FFFD for ill-formed input, a branch no theorem below exercises. -/
def utf8DecodeAuxF : Nat → List Nat → Option (List Nat)
  | _, [] => some []
  | 0, _ :: _ => none
  | fuel + 1, b :: rest =>
    if b < 128 then (utf8DecodeAuxF fuel rest).map (b :: ·)
    else if b < 192 then none
    else if b < 224 then
      if 1 ≤ rest.length ∧ (rest.take 1).all utf8Cont then
        let n := (b - 192) * 64 + (rest.getD 0 0 - 128)
        if 128 ≤ n then (utf8DecodeAuxF fuel (rest.drop 1)).map (n :: ·)
        else none
      else none
    else if b < 240 then
      if 2 ≤ rest.length ∧ (rest.take 2).all utf8Cont then
        let n := (b - 224) * 4096 + (rest.getD 0 0 - 128) * 64 +
          (rest.getD 1 0 - 128)
        if 2048 ≤ n then (utf8DecodeAuxF fuel (rest.drop 2)).map (n :: ·)
        else none
      else none
    else if b < 248 then
      if 3 ≤ rest.length ∧ (rest.take 3).all utf8Cont then
        let n := (b - 240) * 262144 + (rest.getD 0 0 - 128) * 4096 +
          (rest.getD 1 0 - 128) * 64 + (rest.getD 2 0 - 128)
        if 65536 ≤ n then (utf8DecodeAuxF fuel (rest.drop 3)).map (n :: ·)
        else none
      else none
    else none

/-- `TextDecoder().decode` on well-formed UTF-8. -/
def utf8Decode (bs : List Nat) : Option JStr :=
  (utf8DecodeAuxF bs.length bs).map (List.map Char.ofNat)

/-- Standard base64 alphabet (scure-base `base64`). -/
def b64Alphabet : JStr :=
  "ABCDEFGHIJKLMNOPQRSTUVWXYZabcdefghijklmnopqrstuvwxyz0123456789+/".toList

/-- Character for a sextet value. -/
def b64Char (n : Nat) : Char := b64Alphabet.getD n '='

/-- Sextet value of a character. -/
def b64Val (c : Char) : Option Nat :=
  List.findIdx? (fun x => x = c) b64Alphabet

/-- scure-base `base64.encode`: RFC 4648 with `=` padding. -/
def base64Encode : List Nat → JStr
  | a :: b :: c :: rest =>
    b64Char (a / 4) :: b64Char (a % 4 * 16 + b / 16) ::
    b64Char (b % 16 * 4 + c / 64) :: b64Char (c % 64) :: base64Encode rest
  | [a, b] => [b64Char (a / 4), b64Char (a % 4 * 16 + b / 16),
    b64Char (b % 16 * 4), '=']
  | [a] => [b64Char (a / 4), b64Char (a % 4 * 16), '=', '=']
  | [] => []

/-- scure-base `base64.decode`: strict RFC 4648, rejecting unknown
characters, bad padding placement and non-zero padding bits.
(`'='` padding may only close the final 4-character group.) -/
def base64Decode : JStr → Option (List Nat)
  | [] => some []
  | c1 :: c2 :: c3 :: c4 :: rest =>
    match b64Val c1, b64Val c2 with
    | some v1, some v2 =>
      if c3 = '=' then
        if c4 = '=' ∧ rest = [] then
          if v2 % 16 = 0 then some [v1 * 4 + v2 / 16] else none
        else none
      else
        match b64Val c3 with
        | some v3 =>
          if c4 = '=' then
            if rest = [] then
              if v3 % 4 = 0 then
                some [v1 * 4 + v2 / 16, v2 % 16 * 16 + v3 / 4]
              else none
            else none
          else
            match b64Val c4 with
            | some v4 =>
              (base64Decode rest).map (fun tail =>
                (v1 * 4 + v2 / 16) :: (v2 % 16 * 16 + v3 / 4) ::
                (v3 % 4 * 64 + v4) :: tail)
            | none => none
        | none => none
    | _, _ => none
  | _ => none

/-! ### The psbt.ts API -/

deriving instance DecidableEq for Except

/-- `PSBT_MAGIC` (psbt.ts). -/
def PSBT_MAGIC : JStr := "CWPSBT".toList

/-- `PSBT_VERSION` (psbt.ts). -/
def PSBT_VERSION : Nat := 1

/-- `STX_MAGIC`: the signed-payload magic `'CWSTX'` (psbt.ts). -/
def STX_MAGIC : JStr := "CWSTX".toList

/-- Serialization of an arbitrary `{magic, version, data}` wrapper for
an unsigned payload: `base64(UTF-8(JSON.stringify(payload)))`. -/
def encodePsbtPayload (magic : JStr) (version : Nat)
    (data : UnsignedPSBT) : JStr :=
  base64Encode (utf8Bytes (stringifyPsbtPayload magic version data))

/-- `serializePSBT` (psbt.ts). -/
def serializePSBT (psbt : UnsignedPSBT) : JStr :=
  encodePsbtPayload PSBT_MAGIC PSBT_VERSION psbt

/-- Serialization of a `{magic, version, data}` wrapper for a signed
payload. -/
def encodeSignedPayload (magic : JStr) (version : Nat)
    (data : SignedTransaction) : JStr :=
  base64Encode (utf8Bytes (stringifySignedPayload magic version data))

/-- `serializeSignedTx` (psbt.ts). -/
def serializeSignedTx (signedTx : SignedTransaction) : JStr :=
  encodeSignedPayload STX_MAGIC 1 signedTx

/-- `validatePSBT` (psbt.ts): the structural checks, grouped per field
kind; returns the first applicable error message, `none` when valid. -/
def validatePSBT (psbt : UnsignedPSBT) : Option String :=
  if psbt.inputs.isEmpty then some "PSBT must have at least one input"
  else if psbt.outputs.isEmpty then some "PSBT must have at least one output"
  else if ¬(psbt.network = "mainnet".toList ∨ psbt.network = "testnet".toList)
    then some "Invalid network in PSBT"
  else if ¬ psbt.inputs.all (fun i => i.txid.length = 64) then
    some "Invalid input txid"
  else if ¬ psbt.inputs.all (fun i => 0 < i.value) then
    some "Invalid input value"
  else if ¬ psbt.outputs.all (fun o => ¬ o.address.isEmpty) then
    some "Invalid output address"
  else none

/-- `deserializePSBT` (psbt.ts): base64 decode, UTF-8 decode, JSON
parse, magic check, version check, structural validation.  Decode
failures of the transport layers surface as the catch-all rethrow of
the source's `try`/`catch`. -/
def deserializePSBT (encoded : JStr) : Except String UnsignedPSBT :=
  match base64Decode encoded with
  | none => .error "Failed to parse PSBT: bad base64"
  | some bytes =>
    match utf8Decode bytes with
    | none => .error "Failed to parse PSBT: bad utf8"
    | some jsonString =>
      match parsePsbtPayload jsonString with
      | none => .error "Failed to parse PSBT: bad JSON"
      | some (magic, version, data) =>
        if magic ≠ PSBT_MAGIC then
          .error "Failed to parse PSBT: Invalid PSBT format: magic mismatch"
        else if PSBT_VERSION < version then
          .error "Failed to parse PSBT: Unsupported PSBT version"
        else
          match validatePSBT data with
          | some e => .error ("Failed to parse PSBT: " ++ e)
          | none => .ok data

/-- `deserializeSignedTx` (psbt.ts): base64 decode, UTF-8 decode, JSON
parse, magic check.  No version check and no structural validation. -/
def deserializeSignedTx (encoded : JStr) : Except String SignedTransaction :=
  match base64Decode encoded with
  | none => .error "Failed to parse signed transaction: bad base64"
  | some bytes =>
    match utf8Decode bytes with
    | none => .error "Failed to parse signed transaction: bad utf8"
    | some jsonString =>
      match parseSignedPayload jsonString with
      | none => .error "Failed to parse signed transaction: bad JSON"
      | some (magic, _version, data) =>
        if magic ≠ STX_MAGIC then
          .error "Failed to parse signed transaction: Invalid signed transaction format"
        else .ok data

/-- Chunk slicing, fuelled (one unit of fuel per chunk; the string
length always suffices when `maxSize ≥ 1`; `maxSize = 0` would make the
source loop forever and is excluded by every statement below). -/
def chunksOfF : Nat → Nat → JStr → List JStr
  | 0, _, _ => []
  | _ + 1, _, [] => []
  | fuel + 1, maxSize, c :: rest =>
    if maxSize = 0 then []
    else (c :: rest).take maxSize :: chunksOfF fuel maxSize ((c :: rest).drop maxSize)

/-- The chunk bodies of `splitPSBT`: successive `maxSize`-character
slices of the serialized string. -/
def chunksOf (maxSize : Nat) (s : JStr) : List JStr :=
  chunksOfF s.length maxSize s

/-- `splitPSBT` (psbt.ts): each slice is prefixed with
`"<1-based index>/<total>:"`, the total being
`Math.ceil(length / maxSize)`. -/
def splitPSBT (psbt : UnsignedPSBT) (maxSize : Nat) : List JStr :=
  let serialized := serializePSBT psbt
  let total := (serialized.length + maxSize - 1) / maxSize
  (chunksOf maxSize serialized).enum.map (fun q =>
    natDigits (q.1 + 1) ++ '/' :: natDigits total ++ ':' :: q.2)

/-- The sort key `parseInt(part.split('/')[0], 10)` of `reassemblePSBT`:
the numeric value of the leading digits before the first `'/'`.
(JS would produce `NaN` for a digit-free prefix; such chunks do not
arise in any statement below, and the model maps them to 0.) -/
def chunkKey (part : JStr) : Nat :=
  natOfDigits ((part.takeWhile (fun c => c ≠ '/')).takeWhile Char.isDigit)

/-- `part.slice(part.indexOf(':') + 1)`: everything after the first
colon; the whole string when there is no colon (JS `indexOf` = −1). -/
def chunkData (part : JStr) : JStr :=
  match part.dropWhile (fun c => c ≠ ':') with
  | ':' :: r => r
  | _ => part

/-- `reassemblePSBT` (psbt.ts): stable-sort the chunks by numeric index
prefix (JS `Array.prototype.sort` is stable, like `insertionSort`),
strip the headers, join, and deserialize. -/
def reassemblePSBT (parts : List JStr) : Except String UnsignedPSBT :=
  let sorted := List.insertionSort (fun a b => chunkKey a ≤ chunkKey b) parts
  deserializePSBT (sorted.map chunkData).flatten

/-! ## JSON round-trip lemmas -/

theorem parseLit_append (l r : JStr) : parseLit l (l ++ r) = some r := by
  induction l with
  | nil => rfl
  | cons c ls ih => simp [parseLit, ih]

theorem charOfNat_toNat (n : Nat) (h : n < 55296) :
    (Char.ofNat n).toNat = n := by
  unfold Char.ofNat
  split
  · rfl
  · rename_i hv
    exact absurd (Or.inl (by exact_mod_cast h)) hv

theorem digitChar_isDigit (n : Nat) (h : n < 10) :
    (digitChar n).isDigit = true := by
  interval_cases n <;> decide

theorem natDigitsF_digits : ∀ (fuel n : Nat), ∀ c ∈ natDigitsF fuel n,
    c.isDigit = true := by
  intro fuel
  induction fuel with
  | zero => intro n c hc; simp [natDigitsF] at hc
  | succ fuel ih =>
    intro n c hc
    rw [natDigitsF] at hc
    by_cases h : n < 10
    · simp [h] at hc
      subst hc
      exact digitChar_isDigit n h
    · simp [h, List.mem_append] at hc
      rcases hc with hc | hc
      · exact ih (n / 10) c hc
      · subst hc
        exact digitChar_isDigit (n % 10) (by omega)

theorem natDigits_digits (n : Nat) : ∀ c ∈ natDigits n, c.isDigit = true :=
  natDigitsF_digits (n + 1) n

theorem natOfDigits_append_digit (l : JStr) (c : Char) :
    natOfDigits (l ++ [c]) = 10 * natOfDigits l + (c.toNat - 48) := by
  simp [natOfDigits, List.foldl_append]

theorem natOfDigits_natDigitsF : ∀ (fuel n : Nat), n < fuel →
    natOfDigits (natDigitsF fuel n) = n := by
  intro fuel
  induction fuel with
  | zero => intro n h; omega
  | succ fuel ih =>
    intro n h
    rw [natDigitsF]
    by_cases h10 : n < 10
    · simp only [if_pos h10]
      show natOfDigits [digitChar n] = n
      simp [natOfDigits, digitChar, charOfNat_toNat (48 + n) (by omega)]
    · simp only [if_neg h10]
      rw [natOfDigits_append_digit, ih (n / 10) (by omega)]
      have hd : (digitChar (n % 10)).toNat = 48 + n % 10 := by
        simp [digitChar, charOfNat_toNat (48 + n % 10) (by omega)]
      rw [hd]
      omega

theorem natOfDigits_natDigits (n : Nat) : natOfDigits (natDigits n) = n :=
  natOfDigits_natDigitsF (n + 1) n (by omega)

theorem natDigitsF_ne_nil (fuel n : Nat) (h : 0 < fuel) :
    natDigitsF fuel n ≠ [] := by
  cases fuel with
  | zero => omega
  | succ fuel =>
    rw [natDigitsF]
    by_cases h10 : n < 10 <;> simp [h10]

theorem takeWhile_append_all (p : Char → Bool) (l r : JStr)
    (hl : ∀ c ∈ l, p c = true)
    (hr : ∀ c, r.head? = some c → p c = false) :
    (l ++ r).takeWhile p = l := by
  induction l with
  | nil =>
    simp only [List.nil_append]
    cases r with
    | nil => rfl
    | cons c t =>
      simp only [List.takeWhile]
      rw [hr c rfl]
  | cons c t ih =>
    simp only [List.cons_append, List.takeWhile]
    rw [hl c (List.mem_cons_self c t)]
    simp only [List.cons.injEq, true_and]
    exact ih (fun d hd => hl d (List.mem_cons_of_mem c hd))

theorem dropWhile_append_all (p : Char → Bool) (l r : JStr)
    (hl : ∀ c ∈ l, p c = true)
    (hr : ∀ c, r.head? = some c → p c = false) :
    (l ++ r).dropWhile p = r := by
  induction l with
  | nil =>
    simp only [List.nil_append]
    cases r with
    | nil => rfl
    | cons c t =>
      simp only [List.dropWhile]
      rw [hr c rfl]
  | cons c t ih =>
    simp only [List.cons_append, List.dropWhile]
    rw [hl c (List.mem_cons_self c t)]
    exact ih (fun d hd => hl d (List.mem_cons_of_mem c hd))

/-- `parseNat` consumes exactly a decimal literal when the remainder
does not begin with a digit. -/
theorem parseNat_natDigits (n : Nat) (t : JStr)
    (ht : ∀ c, t.head? = some c → c.isDigit = false) :
    parseNat (natDigits n ++ t) = some (n, t) := by
  have h1 := takeWhile_append_all Char.isDigit (natDigits n) t
    (natDigits_digits n) ht
  have h2 := dropWhile_append_all Char.isDigit (natDigits n) t
    (natDigits_digits n) ht
  have hne : natDigits n ≠ [] := natDigitsF_ne_nil (n + 1) n (by omega)
  simp [parseNat, h1, h2, List.isEmpty_iff, hne, natOfDigits_natDigits]

/-- `parseNat` variant with the remainder's head exposed through a
leading literal. -/
theorem parseNat_natDigits_lit (n : Nat) (l t : JStr) (c : Char)
    (hl : l.head? = some c) (hc : c.isDigit = false) :
    parseNat (natDigits n ++ (l ++ t)) = some (n, l ++ t) := by
  apply parseNat_natDigits
  intro d hd
  cases l with
  | nil => simp at hl
  | cons a l2 =>
    simp only [List.head?] at hl
    simp only [List.cons_append, List.head?] at hd
    injection hl with hl
    injection hd with hd
    subst hl
    subst hd
    exact hc

theorem hexVal_hexChar : ∀ x, x < 16 → hexDigitVal (hexDigitChar x) = some x := by
  decide

theorem parseStringBody_escape (s r : JStr) :
    parseStringBody (s.flatMap escapeChar ++ ('"' :: r)) = some (s, r) := by
  induction s with
  | nil =>
    rw [List.flatMap_nil, List.nil_append, parseStringBody.eq_def]
    simp
  | cons c cs ih =>
    simp only [List.flatMap_cons, List.append_assoc]
    rw [escapeChar]
    split_ifs with h1 h2 h3 h4 h5 h6 h7 h8
    · subst h1
      simp [parseStringBody, unescapeChar, ih]
    · subst h2
      simp [parseStringBody, unescapeChar, ih]
    · simp [parseStringBody, unescapeChar, ih]
      rw [← h3, Char.ofNat_toNat]
    · simp [parseStringBody, unescapeChar, ih]
      rw [← h4, Char.ofNat_toNat]
    · simp [parseStringBody, unescapeChar, ih]
      rw [← h5, Char.ofNat_toNat]
    · simp [parseStringBody, unescapeChar, ih]
      rw [← h6, Char.ofNat_toNat]
    · simp [parseStringBody, unescapeChar, ih]
      rw [← h7, Char.ofNat_toNat]
    · have h0 : hexDigitVal '0' = some 0 := by decide
      simp [parseStringBody, h0, hexVal_hexChar (c.toNat / 16) (by omega),
        hexVal_hexChar (c.toNat % 16) (by omega), ih]
      have harith : 16 * (c.toNat / 16) + c.toNat % 16 = c.toNat := by omega
      rw [harith, Char.ofNat_toNat]
    · simp only [List.cons_append]
      rw [parseStringBody.eq_def]
      simp [h1, h2, ih]

theorem parseJString_jsonStr (s r : JStr) :
    parseJString (jsonStr s ++ r) = some (s, r) := by
  have he : jsonStr s ++ r = '"' :: (s.flatMap escapeChar ++ ('"' :: r)) := by
    simp [jsonStr]
  rw [he]
  simp only [parseJString]
  exact parseStringBody_escape s r

/-- A `parseLit` whose first literal character mismatches the input's
head fails. -/
theorem parseLit_ne_head (c : Char) (l s : JStr) (d : Char)
    (hs : s.head? = some d) (h : c ≠ d) : parseLit (c :: l) s = none := by
  cases s with
  | nil => simp at hs
  | cons a t =>
    simp only [List.head?] at hs
    injection hs with hs
    subst hs
    simp [parseLit, h]

theorem parseNat_digits_comma (n : Nat) (t : JStr) :
    parseNat (natDigits n ++ (',' :: t)) = some (n, ',' :: t) := by
  apply parseNat_natDigits
  intro c hc
  simp only [List.head?] at hc
  injection hc with hc
  subst hc
  decide

theorem parseNat_digits_rbrace (n : Nat) (t : JStr) :
    parseNat (natDigits n ++ ('\x7d' :: t)) = some (n, '\x7d' :: t) := by
  apply parseNat_natDigits
  intro c hc
  simp only [List.head?] at hc
  injection hc with hc
  subst hc
  decide

theorem parseInput_rt (i : PSBTInput) (r : JStr) :
    parseInput (stringifyInput i ++ r) = some (i, r) := by
  obtain ⟨txid, vout, value, spk⟩ := i
  cases spk with
  | none =>
    simp only [stringifyInput, List.append_assoc, List.nil_append]
    simp [parseInput, parseOptScriptPubKey, parseLit, parseJString_jsonStr,
      parseNat_digits_comma, parseNat_digits_rbrace]
  | some s =>
    simp only [stringifyInput, List.append_assoc]
    simp [parseInput, parseOptScriptPubKey, parseLit, parseJString_jsonStr,
      parseNat_digits_comma, parseNat_digits_rbrace]

theorem parseOutput_rt (o : PSBTOutput) (r : JStr) :
    parseOutput (stringifyOutput o ++ r) = some (o, r) := by
  obtain ⟨address, value⟩ := o
  simp only [stringifyOutput, List.append_assoc]
  simp [parseOutput, parseLit, parseJString_jsonStr, parseNat_digits_rbrace]

theorem parseArrayAux_rt {α : Type} (pe : JStr → Option (α × JStr)) (f : α → JStr)
    (hrt : ∀ x r, pe (f x ++ r) = some (x, r)) :
    ∀ (L : List α) (k : Nat) (r : JStr), L ≠ [] →
      parseArrayAux pe (L.length + k) (jsonItems (L.map f) ++ (']' :: r)) =
        some (L, r) := by
  intro L
  induction L with
  | nil => intro k r h; exact absurd rfl h
  | cons x L ih =>
    intro k r _
    cases L with
    | nil =>
      simp only [List.map_cons, List.map_nil, jsonItems, List.length_cons,
        List.length_nil]
      have h1 : 0 + 1 + k = k + 1 := by omega
      rw [h1, parseArrayAux]
      simp [hrt]
    | cons y L2 =>
      simp only [List.map_cons, jsonItems, List.append_assoc, List.length_cons,
        List.cons_append]
      have h1 : L2.length + 1 + 1 + k = (L2.length + 1 + k) + 1 := by omega
      rw [h1, parseArrayAux]
      simp only [hrt x (',' :: (jsonItems (f y :: L2.map f) ++ (']' :: r)))]
      have h2 := ih (k := k) (r := r) (by simp)
      simp only [List.map_cons, List.length_cons] at h2
      simp [h2]

theorem jsonItems_length_ge {α : Type} (f : α → JStr) :
    ∀ (L : List α), (∀ y ∈ L, f y ≠ []) →
      L.length ≤ (jsonItems (L.map f)).length := by
  intro L
  induction L with
  | nil => simp
  | cons x L ih =>
    intro h
    cases L with
    | nil =>
      simp only [List.map_cons, List.map_nil, jsonItems, List.length_cons,
        List.length_nil]
      have := h x (by simp)
      cases hx : f x with
      | nil => exact absurd hx this
      | cons a t => simp [hx]
    | cons y L2 =>
      simp only [List.map_cons, jsonItems, List.cons_append, List.length_cons,
        List.length_append]
      have h2 := ih (fun z hz => h z (List.mem_cons_of_mem x hz))
      simp only [List.map_cons, List.length_cons] at h2
      omega

theorem parseArray_rt {α : Type} (pe : JStr → Option (α × JStr)) (f : α → JStr)
    (hrt : ∀ x r, pe (f x ++ r) = some (x, r))
    (hhead : ∀ x, ∃ t, f x = '\x7b' :: t) :
    ∀ (L : List α) (r : JStr),
      parseArray pe (jsonArray (L.map f) ++ r) = some (L, r) := by
  intro L r
  cases L with
  | nil => simp [jsonArray, jsonItems, parseArray]
  | cons x L =>
    obtain ⟨t, hfx⟩ := hhead x
    have hne : jsonItems ((x :: L).map f) ++ (']' :: r) =
        '\x7b' :: (jsonItems ((x :: L).map f) ++ (']' :: r)).tail := by
      cases L with
      | nil => simp [jsonItems, hfx]
      | cons y L2 => simp [jsonItems, hfx]
    have hlen : (x :: L).length ≤
        (jsonItems ((x :: L).map f) ++ (']' :: r)).length := by
      have hge := jsonItems_length_ge f (x :: L)
        (fun y hy => by obtain ⟨ty, hty⟩ := hhead y; simp [hty])
      simp only [List.length_append, List.length_cons] at hge ⊢
      omega
    simp only [jsonArray, List.append_assoc, List.cons_append,
      List.singleton_append]
    rw [parseArray.eq_def]
    simp only [List.nil_append]
    rw [hne]
    split
    · rename_i s hs
      exfalso
      injection hs with h1 h2
      injection h2 with h3 h4
      exact absurd h3 (by decide)
    · rename_i s hs
      injection hs with h1 h2
      rw [← h2, ← hne]
      have hsplit := (Nat.add_sub_cancel' hlen).symm
      rw [hsplit]
      exact parseArrayAux_rt pe f hrt (x :: L) _ r (by simp)
    · rename_i hno
      exact absurd rfl (hno ('\x7b' :: List.tail (jsonItems (List.map f (x :: L)) ++ ']' :: r)))

theorem stringifyInput_head (i : PSBTInput) :
    ∃ t, stringifyInput i = '\x7b' :: t := by
  obtain ⟨txid, vout, value, spk⟩ := i
  simp [stringifyInput]

theorem stringifyOutput_head (o : PSBTOutput) :
    ∃ t, stringifyOutput o = '\x7b' :: t := by
  obtain ⟨address, value⟩ := o
  simp [stringifyOutput]


theorem parseInputs_rt (L : List PSBTInput) (r : JStr) :
    parseInputs (jsonArray (L.map stringifyInput) ++ r) = some (L, r) :=
  parseArray_rt parseInput stringifyInput parseInput_rt stringifyInput_head L r

theorem parseOutputs_rt (L : List PSBTOutput) (r : JStr) :
    parseOutputs (jsonArray (L.map stringifyOutput) ++ r) = some (L, r) :=
  parseArray_rt parseOutput stringifyOutput parseOutput_rt stringifyOutput_head L r

set_option maxHeartbeats 1000000 in
theorem parseUnsigned_rt (p : UnsignedPSBT) (r : JStr) :
    parseUnsigned (stringifyUnsigned p ++ r) = some (p, r) := by
  obtain ⟨version, inputs, outputs, network, fee, changeIndex⟩ := p
  cases changeIndex with
  | none =>
    simp only [stringifyUnsigned, List.append_assoc, List.nil_append]
    simp [parseUnsigned, parseLit, parseJString_jsonStr, parseNat_digits_comma,
      parseNat_digits_rbrace, parseInputs_rt, parseOutputs_rt,
      parseOptChangeIndex]
  | some k =>
    simp only [stringifyUnsigned, List.append_assoc]
    simp [parseUnsigned, parseLit, parseJString_jsonStr, parseNat_digits_comma,
      parseNat_digits_rbrace, parseInputs_rt, parseOutputs_rt,
      parseOptChangeIndex]

set_option maxHeartbeats 1000000 in
theorem parsePsbtPayload_rt (magic : JStr) (version : Nat) (data : UnsignedPSBT) :
    parsePsbtPayload (stringifyPsbtPayload magic version data) =
      some (magic, version, data) := by
  simp only [stringifyPsbtPayload, List.append_assoc]
  simp [parsePsbtPayload, parseLit, parseJString_jsonStr, parseNat_digits_comma,
    parseUnsigned_rt]

theorem parseSigned_rt (t : SignedTransaction) (r : JStr) :
    parseSigned (stringifySigned t ++ r) = some (t, r) := by
  obtain ⟨txHex, txid, network⟩ := t
  simp only [stringifySigned, List.append_assoc]
  simp [parseSigned, parseLit, parseJString_jsonStr]

set_option maxHeartbeats 1000000 in
theorem parseSignedPayload_rt (magic : JStr) (version : Nat)
    (data : SignedTransaction) :
    parseSignedPayload (stringifySignedPayload magic version data) =
      some (magic, version, data) := by
  simp only [stringifySignedPayload, List.append_assoc]
  simp [parseSignedPayload, parseLit, parseJString_jsonStr,
    parseNat_digits_comma, parseSigned_rt]

/-! ### Transport round-trips -/

theorem b64Val_b64Char : ∀ n, n < 64 → b64Val (b64Char n) = some n := by
  decide

theorem b64Char_ne_pad : ∀ n, n < 64 → b64Char n ≠ '=' := by
  decide

theorem base64_rt : ∀ (bs : List Nat), (∀ b ∈ bs, b < 256) →
    base64Decode (base64Encode bs) = some bs
  | [], _ => rfl
  | [a], h => by
    have ha : a < 256 := h a (by simp)
    have hm : a % 4 * 16 % 16 = 0 := by omega
    simp only [base64Encode, base64Decode,
      b64Val_b64Char (a / 4) (by omega),
      b64Val_b64Char (a % 4 * 16) (by omega),
      if_pos rfl, if_pos (And.intro rfl rfl), if_pos hm]
    have e1 : a / 4 * 4 + a % 4 * 16 / 16 = a := by omega
    rw [e1]
    simp
  | [a, b], h => by
    have ha : a < 256 := h a (by simp)
    have hb : b < 256 := h b (by simp)
    have h3 : b64Char (b % 16 * 4) ≠ '=' := b64Char_ne_pad _ (by omega)
    have hm : b % 16 * 4 % 4 = 0 := by omega
    simp only [base64Encode, base64Decode,
      b64Val_b64Char (a / 4) (by omega),
      b64Val_b64Char (a % 4 * 16 + b / 16) (by omega),
      b64Val_b64Char (b % 16 * 4) (by omega),
      if_neg h3, if_pos rfl, if_pos hm]
    have e1 : a / 4 * 4 + (a % 4 * 16 + b / 16) / 16 = a := by omega
    have e2 : (a % 4 * 16 + b / 16) % 16 * 16 + b % 16 * 4 / 4 = b := by omega
    rw [e1, e2]
    simp
  | [a, b, c], h => by
    have ha : a < 256 := h a (by simp)
    have hb : b < 256 := h b (by simp)
    have hc : c < 256 := h c (by simp)
    have ih : base64Decode (base64Encode []) = some [] := rfl
    have h3 : b64Char (b % 16 * 4 + c / 64) ≠ '=' := b64Char_ne_pad _ (by omega)
    have h4 : b64Char (c % 64) ≠ '=' := b64Char_ne_pad _ (by omega)
    simp only [base64Encode, base64Decode,
      b64Val_b64Char (a / 4) (by omega),
      b64Val_b64Char (a % 4 * 16 + b / 16) (by omega),
      b64Val_b64Char (b % 16 * 4 + c / 64) (by omega),
      b64Val_b64Char (c % 64) (by omega),
      if_neg h3, if_neg h4, ih, Option.map_some]
    have e1 : a / 4 * 4 + (a % 4 * 16 + b / 16) / 16 = a := by omega
    have e2 : (a % 4 * 16 + b / 16) % 16 * 16 + (b % 16 * 4 + c / 64) / 4 = b := by
      omega
    have e3 : (b % 16 * 4 + c / 64) % 4 * 64 + c % 64 = c := by omega
    rw [e1, e2, e3]
    simp
  | a :: b :: c :: d :: rest, h => by
    have ha : a < 256 := h a (by simp)
    have hb : b < 256 := h b (by simp)
    have hc : c < 256 := h c (by simp)
    have ih := base64_rt (d :: rest) (fun x hx => h x (by simp [hx]))
    have h3 : b64Char (b % 16 * 4 + c / 64) ≠ '=' := b64Char_ne_pad _ (by omega)
    have h4 : b64Char (c % 64) ≠ '=' := b64Char_ne_pad _ (by omega)
    simp only [base64Encode, base64Decode,
      b64Val_b64Char (a / 4) (by omega),
      b64Val_b64Char (a % 4 * 16 + b / 16) (by omega),
      b64Val_b64Char (b % 16 * 4 + c / 64) (by omega),
      b64Val_b64Char (c % 64) (by omega),
      if_neg h3, if_neg h4, ih, Option.map_some]
    have e1 : a / 4 * 4 + (a % 4 * 16 + b / 16) / 16 = a := by omega
    have e2 : (a % 4 * 16 + b / 16) % 16 * 16 + (b % 16 * 4 + c / 64) / 4 = b := by
      omega
    have e3 : (b % 16 * 4 + c / 64) % 4 * 64 + c % 64 = c := by omega
    rw [e1, e2, e3]
    simp
termination_by bs => bs.length

set_option maxHeartbeats 1000000 in
theorem utf8DecodeAuxF_encodeChar (fuel n : Nat) (hv : n.isValidChar)
    (rest : List Nat) :
    utf8DecodeAuxF (fuel + 1) (utf8EncodeChar n ++ rest) =
      (utf8DecodeAuxF fuel rest).map (n :: ·) := by
  have hn : n < 1114112 := by
    rcases hv with h | ⟨_, h⟩
    · omega
    · exact h
  rw [utf8EncodeChar]
  by_cases h1 : n < 128
  · simp only [if_pos h1, List.cons_append, List.nil_append]
    rw [utf8DecodeAuxF]
    rw [if_pos h1]
  · rw [if_neg h1]
    by_cases h2 : n < 2048
    · simp only [if_pos h2, List.cons_append, List.nil_append]
      rw [utf8DecodeAuxF]
      rw [if_neg (by omega)]
      rw [if_neg (by omega)]
      rw [if_pos (by omega), if_pos (by simp [utf8Cont]; omega)]
      simp only [List.getD_cons_zero, List.drop_succ_cons, List.drop_zero]
      have e1 : (192 + n / 64 - 192) * 64 + (128 + n % 64 - 128) = n := by omega
      rw [e1, if_pos (by omega)]
    · rw [if_neg h2]
      by_cases h3 : n < 65536
      · simp only [if_pos h3, List.cons_append, List.nil_append]
        rw [utf8DecodeAuxF]
        rw [if_neg (by omega)]
        rw [if_neg (by omega)]
        rw [if_neg (by omega)]
        rw [if_pos (by omega), if_pos (by simp [utf8Cont]; omega)]
        simp only [List.getD_cons_zero, List.getD_cons_succ,
          List.drop_succ_cons, List.drop_zero]
        have e1 : (224 + n / 4096 - 224) * 4096 + (128 + n / 64 % 64 - 128) * 64
            + (128 + n % 64 - 128) = n := by omega
        rw [e1, if_pos (by omega)]
      · rw [if_neg h3]
        simp only [List.cons_append, List.nil_append]
        rw [utf8DecodeAuxF]
        rw [if_neg (by omega)]
        rw [if_neg (by omega)]
        rw [if_neg (by omega)]
        rw [if_neg (by omega)]
        rw [if_pos (by omega), if_pos (by simp [utf8Cont]; omega)]
        simp only [List.getD_cons_zero, List.getD_cons_succ,
          List.drop_succ_cons, List.drop_zero]
        have e1 : (240 + n / 262144 - 240) * 262144 +
            (128 + n / 4096 % 64 - 128) * 4096 +
            (128 + n / 64 % 64 - 128) * 64 + (128 + n % 64 - 128) = n := by omega
        rw [e1, if_pos (by omega)]

theorem char_isValidChar (c : Char) : c.toNat.isValidChar := by
  have hva := c.valid
  rcases hva with h | ⟨ha, hb⟩
  · exact Or.inl (by exact_mod_cast h)
  · exact Or.inr ⟨by exact_mod_cast ha, by exact_mod_cast hb⟩

theorem utf8DecodeAuxF_bytes (s : JStr) :
    ∀ k, utf8DecodeAuxF (s.length + k) (utf8Bytes s) =
      some (s.map Char.toNat) := by
  induction s with
  | nil =>
    intro k
    cases k <;> rfl
  | cons c cs ih =>
    intro k
    show utf8DecodeAuxF (cs.length + 1 + k) (utf8EncodeChar c.toNat ++ utf8Bytes cs) = _
    have hf : cs.length + 1 + k = (cs.length + k) + 1 := by omega
    rw [hf, utf8DecodeAuxF_encodeChar (cs.length + k) c.toNat
      (char_isValidChar c), ih k]
    rfl

theorem utf8EncodeChar_ne_nil (n : Nat) : utf8EncodeChar n ≠ [] := by
  rw [utf8EncodeChar]
  split_ifs <;> simp

theorem utf8Bytes_length_ge (s : JStr) : s.length ≤ (utf8Bytes s).length := by
  induction s with
  | nil => simp [utf8Bytes]
  | cons c cs ih =>
    show (c :: cs).length ≤ (utf8EncodeChar c.toNat ++ utf8Bytes cs).length
    have h1 := utf8EncodeChar_ne_nil c.toNat
    have h2 : 1 ≤ (utf8EncodeChar c.toNat).length := by
      cases he : utf8EncodeChar c.toNat with
      | nil => exact absurd he h1
      | cons a t => simp
    simp only [List.length_append, List.length_cons]
    omega

theorem utf8Decode_bytes (s : JStr) : utf8Decode (utf8Bytes s) = some s := by
  rw [utf8Decode]
  have hlen := utf8Bytes_length_ge s
  have hsplit : (utf8Bytes s).length = s.length + ((utf8Bytes s).length - s.length) :=
    (Nat.add_sub_cancel' hlen).symm
  rw [hsplit, utf8DecodeAuxF_bytes s]
  show some (List.map Char.ofNat (List.map Char.toNat s)) = some s
  congr 1
  rw [List.map_map]
  rw [show (Char.ofNat ∘ Char.toNat) = id from funext Char.ofNat_toNat]
  exact List.map_id s

theorem utf8EncodeChar_lt (n : Nat) (hn : n < 1114112) :
    ∀ b ∈ utf8EncodeChar n, b < 256 := by
  intro b hb
  rw [utf8EncodeChar] at hb
  split_ifs at hb <;> simp at hb <;> omega

theorem utf8Bytes_lt (s : JStr) : ∀ b ∈ utf8Bytes s, b < 256 := by
  intro b hb
  rw [utf8Bytes] at hb
  simp only [List.mem_flatMap] at hb
  obtain ⟨c, _, hbc⟩ := hb
  have hv : c.toNat < 1114112 := by
    rcases char_isValidChar c with h | ⟨_, h⟩ <;> omega
  exact utf8EncodeChar_lt c.toNat hv b hbc

/-- `deserializePSBT` inverts `serializePSBT` on envelopes passing
`validatePSBT`. -/
theorem deserializePSBT_serializePSBT (p : UnsignedPSBT)
    (hval : validatePSBT p = none) :
    deserializePSBT (serializePSBT p) = .ok p := by
  rw [serializePSBT, encodePsbtPayload, deserializePSBT]
  simp only [base64_rt _ (utf8Bytes_lt _), utf8Decode_bytes,
    parsePsbtPayload_rt, hval]
  simp [PSBT_VERSION]

/-- `deserializeSignedTx` inverts `serializeSignedTx` unconditionally. -/
theorem deserializeSignedTx_serializeSignedTx (t : SignedTransaction) :
    deserializeSignedTx (serializeSignedTx t) = .ok t := by
  rw [serializeSignedTx, encodeSignedPayload, deserializeSignedTx]
  simp only [base64_rt _ (utf8Bytes_lt _), utf8Decode_bytes,
    parseSignedPayload_rt]
  simp

/-! ## Claim C4: serialize/deserialize round-trip -/

/-- A concrete envelope meeting every well-formedness condition listed
in the claim (non-empty inputs and outputs, valid network, positive
input values, non-negative output values, 64-character txids) whose
output address is the empty string. -/
def psbtEmptyAddr : UnsignedPSBT :=
  { version := 2,
    inputs := [{ txid := List.replicate 64 'a', vout := 0, value := 1000,
                 scriptPubKey := none }],
    outputs := [{ address := [], value := 0 }],
    network := "mainnet".toList, fee := 0, changeIndex := none }

/-- A concrete well-formed envelope with a non-empty output address. -/
def psbtExample : UnsignedPSBT :=
  { version := 2,
    inputs := [{ txid := List.replicate 64 'a', vout := 1, value := 5000,
                 scriptPubKey := none }],
    outputs := [{ address := "bc1qw508d6qejxtdg4y5r3zarvary0c5xw7kv8f3t4".toList,
                  value := 4000 }],
    network := "mainnet".toList, fee := 1000, changeIndex := none }

/-- A concrete signed-transaction envelope. -/
def stxExample : SignedTransaction :=
  { txHex := "0200f1".toList, txid := "ab12".toList,
    network := "mainnet".toList }

/-- Helper: the structural validation passes exactly under the
amended well-formedness conditions. -/
theorem validatePSBT_none (p : UnsignedPSBT)
    (h1 : p.inputs ≠ []) (h2 : p.outputs ≠ [])
    (h3 : p.network = "mainnet".toList ∨ p.network = "testnet".toList)
    (h4 : ∀ i ∈ p.inputs, i.txid.length = 64 ∧ 0 < i.value)
    (h5 : ∀ o ∈ p.outputs, o.address ≠ []) :
    validatePSBT p = none := by
  rw [validatePSBT]
  rw [if_neg (by simp [List.isEmpty_iff, h1])]
  rw [if_neg (by simp [List.isEmpty_iff, h2])]
  rw [if_neg (by simp only [not_not]; exact h3)]
  rw [if_neg (by
    simp only [not_not, List.all_eq_true, decide_eq_true_eq]
    exact fun i hi => (h4 i hi).1)]
  rw [if_neg (by
    simp only [not_not, List.all_eq_true, decide_eq_true_eq]
    exact fun i hi => (h4 i hi).2)]
  rw [if_neg (by
    simp only [not_not, List.all_eq_true, decide_eq_true_eq]
    intro o ho
    simp [List.isEmpty_iff, h5 o ho])]

set_option maxRecDepth 10000 in
/-- C4 counterexample: this envelope satisfies every condition the
claim lists as "well-formed", yet the round-trip fails (the validator
also rejects empty output address strings). -/
theorem psbt_roundtrip_claim_counterexample :
    (psbtEmptyAddr.inputs ≠ [] ∧ psbtEmptyAddr.outputs ≠ [] ∧
     psbtEmptyAddr.network = "mainnet".toList ∧
     (∀ i ∈ psbtEmptyAddr.inputs, i.txid.length = 64 ∧ 0 < i.value)) ∧
    deserializePSBT (serializePSBT psbtEmptyAddr) =
      .error "Failed to parse PSBT: Invalid output address" := by
  constructor
  · refine ⟨by decide, by decide, by decide, by decide⟩
  · decide

/-- **C4 (amended).** With the additional condition that every output
address is non-empty, both round-trips hold:
`deserializePSBT (serializePSBT p) = ok p` and
`deserializeSignedTx (serializeSignedTx s) = ok s` (the latter for all
signed envelopes). -/
theorem psbt_roundtrip (p : UnsignedPSBT) (s : SignedTransaction)
    (h1 : p.inputs ≠ []) (h2 : p.outputs ≠ [])
    (h3 : p.network = "mainnet".toList ∨ p.network = "testnet".toList)
    (h4 : ∀ i ∈ p.inputs, i.txid.length = 64 ∧ 0 < i.value)
    (h5 : ∀ o ∈ p.outputs, o.address ≠ []) :
    deserializePSBT (serializePSBT p) = .ok p ∧
    deserializeSignedTx (serializeSignedTx s) = .ok s :=
  ⟨deserializePSBT_serializePSBT p (validatePSBT_none p h1 h2 h3 h4 h5),
   deserializeSignedTx_serializeSignedTx s⟩

/-- C4 witness at concrete envelopes. -/
theorem psbt_roundtrip_witness :
    deserializePSBT (serializePSBT psbtExample) = .ok psbtExample ∧
    deserializeSignedTx (serializeSignedTx stxExample) = .ok stxExample :=
  psbt_roundtrip psbtExample stxExample (by decide) (by decide)
    (Or.inl (by decide)) (by decide) (by decide)

/-! ## Claim C6: envelope header failures -/

/-- `deserializePSBT` on an encoded document whose magic differs. -/
theorem deserializePSBT_wrong_magic (magic : JStr) (ver : Nat)
    (data : UnsignedPSBT) (hm : magic ≠ PSBT_MAGIC) :
    deserializePSBT (encodePsbtPayload magic ver data) =
      .error "Failed to parse PSBT: Invalid PSBT format: magic mismatch" := by
  rw [encodePsbtPayload, deserializePSBT]
  simp only [base64_rt _ (utf8Bytes_lt _), utf8Decode_bytes, parsePsbtPayload_rt]
  simp [hm]

/-- `deserializePSBT` on an encoded document with a too-new version. -/
theorem deserializePSBT_version_too_new (ver : Nat) (data : UnsignedPSBT)
    (hv : PSBT_VERSION < ver) :
    deserializePSBT (encodePsbtPayload PSBT_MAGIC ver data) =
      .error "Failed to parse PSBT: Unsupported PSBT version" := by
  rw [encodePsbtPayload, deserializePSBT]
  simp only [base64_rt _ (utf8Bytes_lt _), utf8Decode_bytes, parsePsbtPayload_rt]
  simp [hv]

/-- `deserializePSBT` on an encoded payload with zero inputs. -/
theorem deserializePSBT_zero_inputs (ver : Nat) (data : UnsignedPSBT)
    (hv : ver ≤ PSBT_VERSION) (hz : data.inputs = []) :
    deserializePSBT (encodePsbtPayload PSBT_MAGIC ver data) =
      .error "Failed to parse PSBT: PSBT must have at least one input" := by
  rw [encodePsbtPayload, deserializePSBT]
  simp only [base64_rt _ (utf8Bytes_lt _), utf8Decode_bytes, parsePsbtPayload_rt]
  have hval : validatePSBT data = some "PSBT must have at least one input" := by
    rw [validatePSBT, if_pos (by simp [List.isEmpty_iff, hz])]
  simp only [hval]
  simp [Nat.not_lt.mpr hv]

/-- `deserializeSignedTx` on an encoded document whose magic differs. -/
theorem deserializeSignedTx_wrong_magic (magic : JStr) (ver : Nat)
    (t : SignedTransaction) (hm : magic ≠ STX_MAGIC) :
    deserializeSignedTx (encodeSignedPayload magic ver t) =
      .error "Failed to parse signed transaction: Invalid signed transaction format" := by
  rw [encodeSignedPayload, deserializeSignedTx]
  simp only [base64_rt _ (utf8Bytes_lt _), utf8Decode_bytes,
    parseSignedPayload_rt]
  simp [hm]

/-- `deserializeSignedTx` ignores the version field entirely. -/
theorem deserializeSignedTx_ignores_version (ver : Nat)
    (t : SignedTransaction) :
    deserializeSignedTx (encodeSignedPayload STX_MAGIC ver t) = .ok t := by
  rw [encodeSignedPayload, deserializeSignedTx]
  simp only [base64_rt _ (utf8Bytes_lt _), utf8Decode_bytes,
    parseSignedPayload_rt]
  simp

/-- **C6 (amended).** Header failures: `deserializePSBT` fails (with
the exact source error) on wrong magic, on version greater than the
implemented version, and on zero inputs; `deserializeSignedTx` fails on
wrong magic.  (The claim's remaining conjunct — that
`deserializeSignedTx` also rejects versions that are too new — is
false: the signed-envelope decoder performs no version check, per the
counterexample.) -/
theorem envelope_header_failures :
    (∀ (magic : JStr) (ver : Nat) (data : UnsignedPSBT), magic ≠ PSBT_MAGIC →
      deserializePSBT (encodePsbtPayload magic ver data) =
        .error "Failed to parse PSBT: Invalid PSBT format: magic mismatch") ∧
    (∀ (ver : Nat) (data : UnsignedPSBT), PSBT_VERSION < ver →
      deserializePSBT (encodePsbtPayload PSBT_MAGIC ver data) =
        .error "Failed to parse PSBT: Unsupported PSBT version") ∧
    (∀ (ver : Nat) (data : UnsignedPSBT), ver ≤ PSBT_VERSION →
      data.inputs = [] →
      deserializePSBT (encodePsbtPayload PSBT_MAGIC ver data) =
        .error "Failed to parse PSBT: PSBT must have at least one input") ∧
    (∀ (magic : JStr) (ver : Nat) (t : SignedTransaction), magic ≠ STX_MAGIC →
      deserializeSignedTx (encodeSignedPayload magic ver t) =
        .error "Failed to parse signed transaction: Invalid signed transaction format") ∧
    (∀ (ver : Nat) (t : SignedTransaction),
      deserializeSignedTx (encodeSignedPayload STX_MAGIC ver t) = .ok t) :=
  ⟨deserializePSBT_wrong_magic,
   deserializePSBT_version_too_new,
   fun ver data hv hz => deserializePSBT_zero_inputs ver data hv hz,
   deserializeSignedTx_wrong_magic,
   deserializeSignedTx_ignores_version⟩

set_option maxRecDepth 10000 in
/-- C6 counterexample: a signed envelope whose version (99) is far
above the implemented version (1) is still decoded successfully —
`deserializeSignedTx` has no version check, contradicting the claim
that a too-new version is a hard failure for both envelope kinds. -/
theorem signedtx_version_check_counterexample :
    deserializeSignedTx (encodeSignedPayload STX_MAGIC 99 stxExample) =
      .ok stxExample := by
  decide

/-- C6 witness: every conjunct of `envelope_header_failures`
instantiated at concrete envelopes. -/
theorem envelope_header_failures_witness :
    deserializePSBT (encodePsbtPayload "XX".toList 1 psbtExample) =
      .error "Failed to parse PSBT: Invalid PSBT format: magic mismatch" ∧
    deserializePSBT (encodePsbtPayload PSBT_MAGIC 2 psbtExample) =
      .error "Failed to parse PSBT: Unsupported PSBT version" ∧
    deserializePSBT (encodePsbtPayload PSBT_MAGIC 1
        { psbtExample with inputs := [] }) =
      .error "Failed to parse PSBT: PSBT must have at least one input" ∧
    deserializeSignedTx (encodeSignedPayload "YY".toList 1 stxExample) =
      .error "Failed to parse signed transaction: Invalid signed transaction format" ∧
    deserializeSignedTx (encodeSignedPayload STX_MAGIC 7 stxExample) =
      .ok stxExample :=
  ⟨envelope_header_failures.1 _ _ _ (by decide),
   envelope_header_failures.2.1 _ _ (by decide),
   envelope_header_failures.2.2.1 _ _ (by decide) (by rfl),
   envelope_header_failures.2.2.2.1 _ _ _ (by decide),
   envelope_header_failures.2.2.2.2 _ _⟩

/-! ## Claims C5 and C9: chunking -/

theorem isDigit_ne (c : Char) (h : c.isDigit = true) : c ≠ ':' ∧ c ≠ '/' := by
  constructor
  · intro he; subst he; simp at h
  · intro he; subst he; simp at h

/-- Stripping the `"i/n:"` header recovers the chunk body. -/
theorem chunkData_header (i total : Nat) (d : JStr) :
    chunkData (natDigits i ++ '/' :: (natDigits total ++ ':' :: d)) = d := by
  have hshape : natDigits i ++ '/' :: (natDigits total ++ ':' :: d) =
      (natDigits i ++ '/' :: natDigits total) ++ (':' :: d) := by
    simp [List.append_assoc]
  rw [chunkData, hshape]
  have hdrop : ((natDigits i ++ '/' :: natDigits total) ++ (':' :: d)).dropWhile
      (fun c => c ≠ ':') = ':' :: d := by
    apply dropWhile_append_all
    · intro c hc
      rcases List.mem_append.1 hc with hc | hc
      · simp [(isDigit_ne c (natDigits_digits i c hc)).1]
      · rcases List.mem_cons.1 hc with hc | hc
        · subst hc; simp
        · simp [(isDigit_ne c (natDigits_digits total c hc)).1]
    · intro c hc
      simp only [List.head?_cons] at hc
      injection hc with hc
      subst hc
      simp
  rw [hdrop]
  rfl

/-- The numeric sort key of a header-prefixed chunk. -/
theorem chunkKey_header (i total : Nat) (d : JStr) :
    chunkKey (natDigits i ++ '/' :: (natDigits total ++ ':' :: d)) = i := by
  rw [chunkKey]
  have htake : (natDigits i ++ '/' :: (natDigits total ++ ':' :: d)).takeWhile
      (fun c => c ≠ '/') = natDigits i := by
    rw [takeWhile_append_all]
    · intro c hc
      simp [(isDigit_ne c (natDigits_digits i c hc)).2]
    · intro c hc
      simp only [List.head?_cons] at hc
      injection hc with hc
      subst hc
      simp
  rw [htake]
  have htake2 : (natDigits i).takeWhile Char.isDigit = natDigits i := by
    have hta := takeWhile_append_all Char.isDigit (natDigits i) []
      (natDigits_digits i) (fun c hc => by simp at hc)
    simpa using hta
  rw [htake2, natOfDigits_natDigits]

theorem chunksOfF_flatten : ∀ (fuel m : Nat) (s : JStr), 1 ≤ m →
    s.length ≤ fuel → (chunksOfF fuel m s).flatten = s := by
  intro fuel
  induction fuel with
  | zero =>
    intro m s hm hl
    have hnil : s = [] := by
      cases s with
      | nil => rfl
      | cons c t => simp at hl
    subst hnil
    rfl
  | succ fuel ih =>
    intro m s hm hl
    cases s with
    | nil => rfl
    | cons c t =>
      rw [chunksOfF, if_neg (by omega)]
      rw [List.flatten_cons]
      have hl2 : ((c :: t).drop m).length ≤ fuel := by
        simp only [List.length_drop, List.length_cons]
        simp only [List.length_cons] at hl
        omega
      rw [ih m ((c :: t).drop m) hm hl2]
      exact List.take_append_drop m (c :: t)

theorem pairwise_fst_enumFrom {α : Type} :
    ∀ (n : Nat) (l : List α),
      (l.enumFrom n).Pairwise (fun x y => x.1 < y.1) := by
  intro n l
  induction l generalizing n with
  | nil => simp
  | cons a t ih =>
    simp only [List.enumFrom]
    constructor
    · intro y hy
      have hmem := List.le_fst_of_mem_enumFrom hy
      omega
    · exact ih (n + 1)

/-- Header stripping over the whole split recovers the chunk bodies. -/
theorem mapData_splitPSBT (p : UnsignedPSBT) (m : Nat) :
    (splitPSBT p m).map chunkData = chunksOf m (serializePSBT p) := by
  rw [splitPSBT, List.map_map]
  rw [List.map_congr_left (g := Prod.snd)]
  · exact List.enum_map_snd (chunksOf m (serializePSBT p))
  · intro x _
    simp only [Function.comp_apply, List.append_assoc, List.cons_append]
    exact chunkData_header (x.1 + 1) _ x.2

/-- The split chunks carry strictly increasing numeric keys. -/
theorem splitPSBT_pairwise (p : UnsignedPSBT) (m : Nat) :
    (splitPSBT p m).Pairwise (fun a b => chunkKey a < chunkKey b) := by
  rw [splitPSBT]
  rw [List.pairwise_map]
  have henum : ((chunksOf m (serializePSBT p)).enum).Pairwise
      (fun x y => x.1 < y.1) := pairwise_fst_enumFrom 0 _
  apply henum.imp
  intro a b hab
  simp only [List.append_assoc, List.cons_append]
  rw [chunkKey_header, chunkKey_header]
  omega

/-- Two lists that are permutations of each other, one weakly sorted by
key and the other with strictly increasing keys, are equal. -/
theorem eq_of_perm_of_key_sorted :
    ∀ (l₂ l₁ : List JStr), l₁.Perm l₂ →
      l₁.Pairwise (fun a b => chunkKey a ≤ chunkKey b) →
      l₂.Pairwise (fun a b => chunkKey a < chunkKey b) →
      l₁ = l₂ := by
  intro l₂
  induction l₂ with
  | nil =>
    intro l₁ hperm _ _
    exact hperm.eq_nil
  | cons b t ih =>
    intro l₁ hperm hs₁ hs₂
    cases l₁ with
    | nil => exact absurd hperm.symm (by simp)
    | cons a s =>
      have hab : a = b := by
        by_contra hne
        have ha : a ∈ b :: t := hperm.mem_iff.1 (by simp)
        have hat : a ∈ t := by
          rcases List.mem_cons.1 ha with h | h
          · exact absurd h hne
          · exact h
        have hba : b ∈ a :: s := hperm.mem_iff.2 (by simp)
        have hbs : b ∈ s := by
          rcases List.mem_cons.1 hba with h | h
          · exact absurd h.symm hne
          · exact h
        have h1 : chunkKey b < chunkKey a :=
          (List.pairwise_cons.1 hs₂).1 a hat
        have h2 : chunkKey a ≤ chunkKey b :=
          (List.pairwise_cons.1 hs₁).1 b hbs
        omega
      subst hab
      have hperm2 : s.Perm t := hperm.cons_inv
      rw [ih s hperm2 (List.pairwise_cons.1 hs₁).2 (List.pairwise_cons.1 hs₂).2]

instance : IsTotal JStr (fun a b => chunkKey a ≤ chunkKey b) :=
  ⟨fun a b => Nat.le_total (chunkKey a) (chunkKey b)⟩

instance : IsTrans JStr (fun a b => chunkKey a ≤ chunkKey b) :=
  ⟨fun _ _ _ => Nat.le_trans⟩

/-- **C5.** For every envelope passing structural validation and every
`maxChunkSize ≥ 1`, reassembling any permutation of the split chunks
recovers the envelope (the sort by numeric index prefix makes
reassembly order-insensitive). -/
theorem psbt_chunk_roundtrip (p : UnsignedPSBT) (m : Nat) (parts : List JStr)
    (hm : 1 ≤ m) (hval : validatePSBT p = none)
    (hperm : parts.Perm (splitPSBT p m)) :
    reassemblePSBT parts = .ok p := by
  rw [reassemblePSBT]
  have hsort : List.insertionSort (fun a b => chunkKey a ≤ chunkKey b) parts
      = splitPSBT p m :=
    eq_of_perm_of_key_sorted (splitPSBT p m) _
      ((List.perm_insertionSort _ parts).trans hperm)
      (List.sorted_insertionSort _ parts)
      (splitPSBT_pairwise p m)
  rw [hsort, mapData_splitPSBT]
  rw [show chunksOf m (serializePSBT p)
    = chunksOfF (serializePSBT p).length m (serializePSBT p) from rfl]
  rw [chunksOfF_flatten _ m _ hm (Nat.le_refl _)]
  exact deserializePSBT_serializePSBT p hval

/-- C5 witness: a reversed chunk list of a concrete envelope
reassembles to the envelope. -/
theorem psbt_chunk_roundtrip_witness :
    reassemblePSBT ((splitPSBT psbtExample 10).reverse) = .ok psbtExample :=
  psbt_chunk_roundtrip psbtExample 10 _ (by omega) (by decide)
    (List.reverse_perm _)

/-- **C9 (amended).** `reassemblePSBT` performs no completeness or
duplicate check whatsoever: it is exactly "stable-sort the chunks by
numeric index prefix, strip each header, concatenate, deserialize",
and returns whatever that concatenation decodes to. -/
theorem reassemblePSBT_no_validation (parts : List JStr) :
    reassemblePSBT parts = deserializePSBT
      (((List.insertionSort (fun a b => chunkKey a ≤ chunkKey b)
        parts).map chunkData).flatten) := rfl

/-- A minimal valid envelope used in concrete evaluations. -/
def psbtSmall : UnsignedPSBT :=
  { version := 2,
    inputs := [{ txid := List.replicate 64 'a', vout := 0, value := 7,
                 scriptPubKey := none }],
    outputs := [{ address := ['a'], value := 1 }],
    network := "mainnet".toList, fee := 6, changeIndex := none }

set_option maxRecDepth 10000 in
set_option maxHeartbeats 2000000 in
/-- C9 counterexample: a single chunk whose header declares 2 total
chunks (so index 2 is missing) still reassembles into a successfully
decoded envelope, because the chunk carries the whole payload and
`reassemblePSBT` never checks the declared total. -/
theorem reassemblePSBT_missing_chunk_counterexample :
    reassemblePSBT ['1' :: '/' :: '2' :: ':' :: serializePSBT psbtSmall]
      = .ok psbtSmall := by
  decide

/-! ## Claims C3 and C7: coin selection -/

/-- Total value of a UTXO list. -/
def sumVal (l : List UTXO) : Nat := (l.map UTXO.value).sum

/-- The fee formula exactly as the claim words it:
`feeRate × ceil(10.5 + k×68 + 2×31)`. -/
def specFee (feeRate k : Nat) : Nat :=
  feeRate * Nat.ceil ((10.5 : ℚ) + k * 68 + 2 * 31)

theorem specFee_eq (feeRate k : Nat) : specFee feeRate k = feeRate * txVBytes k 2 := by
  rw [specFee, txVBytes]
  congr 1
  have he : (10.5 : ℚ) + k * 68 + 2 * 31 = ((68 * k + 72 : ℕ) : ℚ) + 2⁻¹ := by
    push_cast
    ring
  rw [he]
  rw [add_comm ((68 * k + 72 : ℕ) : ℚ) 2⁻¹]
  rw [Nat.ceil_add_nat (by norm_num)]
  norm_num
  rw [show Nat.ceil ((1 : ℚ) / 2) = 1 from by
    rw [Nat.ceil_eq_iff (by norm_num)]
    norm_num]
  omega

/-- The result record built for a successful prefix, with the claim's
fee formula and the source's dust folding. -/
def specResult (selected : List UTXO) (target feeRate : Nat) : SelectResult :=
  let fee := specFee feeRate selected.length
  let change := sumVal selected - target - fee
  if change < DUST_LIMIT then
    { selectedUTXOs := selected, fee := fee + change, change := 0 }
  else
    { selectedUTXOs := selected, fee := fee, change := change }

/-- `specSelect`, following the claim's words: consider the UTXOs in
descending order of value; return at the first prefix length `k` whose
total value covers `target + feeRate × ceil(10.5 + k×68 + 2×31)`;
return `none` when no prefix suffices. -/
def specSelect (utxos : List UTXO) (targetAmount feeRate : Nat) :
    Option SelectResult :=
  let sorted := sortDescByValue utxos
  ((List.range sorted.length).find? (fun j =>
    decide (targetAmount + specFee feeRate (j + 1) ≤
      sumVal (sorted.take (j + 1))))).map
    (fun j => specResult (sorted.take (j + 1)) targetAmount feeRate)

theorem sumVal_append (l₁ l₂ : List UTXO) :
    sumVal (l₁ ++ l₂) = sumVal l₁ + sumVal l₂ := by
  simp [sumVal]

theorem sumVal_cons (u : UTXO) (l : List UTXO) :
    sumVal (u :: l) = u.value + sumVal l := by
  simp [sumVal]

/-- The result record as the loop itself builds it (code-side fee). -/
def loopResult (selected : List UTXO) (target feeRate : Nat) : SelectResult :=
  let fee := feeRate * txVBytes selected.length 2
  let change := sumVal selected - target - fee
  if change < DUST_LIMIT then
    { selectedUTXOs := selected, fee := fee + change, change := 0 }
  else
    { selectedUTXOs := selected, fee := fee, change := change }

theorem specResult_eq_loopResult (selected : List UTXO) (target feeRate : Nat) :
    specResult selected target feeRate = loopResult selected target feeRate := by
  rw [specResult, loopResult, specFee_eq]

theorem sumVal_nil : sumVal [] = 0 := rfl

theorem selectLoop_char (target feeRate : Nat) (R : List UTXO) :
    ∀ acc : List UTXO,
      selectLoop target feeRate R acc (sumVal acc) =
        ((List.range R.length).find? (fun j =>
          decide (target + feeRate * txVBytes (acc.length + j + 1) 2 ≤
            sumVal acc + sumVal (R.take (j + 1))))).map
          (fun j => loopResult (acc ++ R.take (j + 1)) target feeRate) := by
  induction R with
  | nil => intro acc; simp [selectLoop]
  | cons u R ih =>
    intro acc
    rw [selectLoop]
    split_ifs with hc hd
    · simp only [List.length_append, List.length_cons, List.length_nil] at hc hd
      push_cast at hc hd
      have hone : (List.range (u :: R).length).find?
          (fun j => decide (target + feeRate * txVBytes (acc.length + j + 1) 2 ≤
            sumVal acc + sumVal (List.take (j + 1) (u :: R)))) = some 0 := by
        rw [List.length_cons, List.range_succ_eq_map]
        apply List.find?_cons_of_pos
        simp only [List.take_succ_cons, List.take_zero, sumVal_cons, sumVal_nil,
          decide_eq_true_eq, Nat.add_zero]
        omega
      rw [hone]
      simp only [loopResult, Option.map_some', List.take_succ_cons, List.take_zero]
      simp only [sumVal_append, sumVal_cons, sumVal_nil, List.length_append,
        List.length_cons, List.length_nil, Nat.add_zero, Nat.zero_add]
      split_ifs with h2
      · simp only [Option.some.injEq, SelectResult.mk.injEq, true_and, and_true]
        omega
      · exact absurd (by omega : sumVal acc + u.value - target -
          feeRate * txVBytes (acc.length + 1) 2 < DUST_LIMIT) h2
    · simp only [List.length_append, List.length_cons, List.length_nil] at hc hd
      push_cast at hc hd
      have hone : (List.range (u :: R).length).find?
          (fun j => decide (target + feeRate * txVBytes (acc.length + j + 1) 2 ≤
            sumVal acc + sumVal (List.take (j + 1) (u :: R)))) = some 0 := by
        rw [List.length_cons, List.range_succ_eq_map]
        apply List.find?_cons_of_pos
        simp only [List.take_succ_cons, List.take_zero, sumVal_cons, sumVal_nil,
          decide_eq_true_eq, Nat.add_zero]
        omega
      rw [hone]
      simp only [loopResult, Option.map_some', List.take_succ_cons, List.take_zero]
      simp only [sumVal_append, sumVal_cons, sumVal_nil, List.length_append,
        List.length_cons, List.length_nil, Nat.add_zero, Nat.zero_add]
      split_ifs with h2
      · exact absurd h2 (by omega)
      · simp only [Option.some.injEq, SelectResult.mk.injEq, true_and, and_true]
        omega
    · simp only [List.length_append, List.length_cons, List.length_nil] at hc
      push_cast at hc
      have hs : sumVal acc + u.value = sumVal (acc ++ [u]) := by
        rw [sumVal_append, sumVal_cons, sumVal_nil]
        omega
      rw [hs, ih (acc ++ [u])]
      rw [List.length_cons, List.range_succ_eq_map]
      rw [List.find?_cons_of_neg]
      · rw [List.find?_map, Option.map_map]
        congr 1
        · funext j
          simp only [Function.comp, Nat.succ_eq_add_one, List.take_succ_cons,
            List.append_assoc, List.singleton_append]
        · congr 1
          funext j
          have ha : acc.length + 1 + j + 1 = acc.length + (j + 1) + 1 := by omega
          simp only [Function.comp, Nat.succ_eq_add_one, List.take_succ_cons,
            sumVal_cons, sumVal_append, sumVal_nil, List.length_append,
            List.length_cons, List.length_nil, Nat.add_zero, Nat.zero_add, ha,
            decide_eq_decide]
          omega
      · simp only [List.take_succ_cons, List.take_zero, sumVal_cons, sumVal_nil,
          decide_eq_true_eq, Nat.add_zero]
        omega

/-- **C7.** `selectUTXOs` implements greedy largest-first selection: it
considers the UTXOs in descending order of value, computes for the `k`-th
prefix the fee `feeRate * ceil(10.5 + k*68 + 2*31)` (always assuming a
change output), and returns at the first prefix whose total value covers
`targetAmount` plus that fee; when no prefix suffices it returns `none`
(the embedding of returning `null` rather than throwing). -/
theorem selectUTXOs_eq_specSelect (utxos : List UTXO) (targetAmount feeRate : Nat) :
    selectUTXOs utxos targetAmount feeRate =
      specSelect utxos targetAmount feeRate := by
  rw [selectUTXOs, specSelect]
  have h := selectLoop_char targetAmount feeRate (sortDescByValue utxos) []
  simp only [sumVal_nil, List.length_nil, Nat.zero_add, List.nil_append] at h
  rw [h]
  congr 1
  · funext j
    exact (specResult_eq_loopResult _ _ _).symm
  · congr 1
    funext j
    rw [specFee_eq]

/-- A UTXO of 1687 sats; with target 1000 and fee rate 1 the computed
change is exactly the dust limit. -/
def dustUTXO : UTXO :=
  { txid := [], vout := 0, value := 1687, scriptPubKey := [], confirmations := 1 }

/-- A UTXO of 1200 sats; with target 1000 and fee rate 1 the computed
change (59 sats) is below the dust limit and is folded into the fee. -/
def foldUTXO : UTXO :=
  { txid := [], vout := 0, value := 1200, scriptPubKey := [], confirmations := 1 }

/-- **C3** (amended): when `selectUTXOs` succeeds, a computed change
amount strictly below the 546-satoshi dust limit is folded into the
returned fee with `change = 0`; a change amount of 546 or more — dust
boundary included — is returned as a separate positive change value. -/
theorem select_change_dust (utxos : List UTXO) (targetAmount feeRate : Nat)
    (res : SelectResult)
    (h : selectUTXOs utxos targetAmount feeRate = some res) :
    (sumVal res.selectedUTXOs - targetAmount -
        feeRate * txVBytes res.selectedUTXOs.length 2 < DUST_LIMIT →
      res.change = 0 ∧
      res.fee = feeRate * txVBytes res.selectedUTXOs.length 2 +
        (sumVal res.selectedUTXOs - targetAmount -
          feeRate * txVBytes res.selectedUTXOs.length 2)) ∧
    (DUST_LIMIT ≤ sumVal res.selectedUTXOs - targetAmount -
        feeRate * txVBytes res.selectedUTXOs.length 2 →
      res.change = sumVal res.selectedUTXOs - targetAmount -
        feeRate * txVBytes res.selectedUTXOs.length 2 ∧
      res.fee = feeRate * txVBytes res.selectedUTXOs.length 2) := by
  rw [selectUTXOs] at h
  have hc := selectLoop_char targetAmount feeRate (sortDescByValue utxos) []
  simp only [sumVal_nil, List.length_nil, Nat.zero_add, List.nil_append] at hc
  rw [hc] at h
  rw [Option.map_eq_some'] at h
  obtain ⟨j, _, hres⟩ := h
  subst hres
  rw [loopResult]
  split_ifs with hsub
  · simp only []
    constructor
    · intro _
      constructor <;> first | rfl | trivial
    · intro habs
      exact absurd hsub (by omega)
  · simp only []
    constructor
    · intro habs
      exact absurd habs hsub
    · intro _
      constructor <;> first | rfl | trivial

/-- Result of `selectUTXOs [foldUTXO] 1000 1`: change 59 folded into fee. -/
def foldResult : SelectResult :=
  { selectedUTXOs := [foldUTXO], fee := 200, change := 0 }

/-- **C3** counterexample: on a single 1687-sat UTXO with target 1000 and
fee rate 1 the computed fee is 141 and the change amount is exactly 546,
equal to the dust limit; the claim says a change of exactly 546 is never
returned as positive change, but the source's strict `<` comparison
returns it unfolded: `change = 546`, not `0`. -/
theorem select_dust_claim_counterexample :
    selectUTXOs [dustUTXO] 1000 1 =
      some { selectedUTXOs := [dustUTXO], fee := 141, change := 546 } ∧
    1 * txVBytes ([dustUTXO] : List UTXO).length 2 = 141 ∧
    sumVal [dustUTXO] - 1000 - 141 = 546 := by
  decide

theorem select_change_dust_witness :
    selectUTXOs [foldUTXO] 1000 1 = some foldResult ∧
    ((sumVal foldResult.selectedUTXOs - 1000 -
        1 * txVBytes foldResult.selectedUTXOs.length 2 < DUST_LIMIT →
      foldResult.change = 0 ∧
      foldResult.fee = 1 * txVBytes foldResult.selectedUTXOs.length 2 +
        (sumVal foldResult.selectedUTXOs - 1000 -
          1 * txVBytes foldResult.selectedUTXOs.length 2)) ∧
    (DUST_LIMIT ≤ sumVal foldResult.selectedUTXOs - 1000 -
        1 * txVBytes foldResult.selectedUTXOs.length 2 →
      foldResult.change = sumVal foldResult.selectedUTXOs - 1000 -
        1 * txVBytes foldResult.selectedUTXOs.length 2 ∧
      foldResult.fee = 1 * txVBytes foldResult.selectedUTXOs.length 2)) :=
  ⟨by decide, select_change_dust [foldUTXO] 1000 1 foldResult (by decide)⟩

/-! ## Claim C10: Taproot address validation is length-only -/

/-- A 62-character Taproot-prefixed string whose last 58 characters are
arbitrary (not even in the bech32 charset). -/
def addr62 : JStr := 'b' :: 'c' :: '1' :: 'p' :: List.replicate 58 '0'

/-- **C10.** For every string starting with `bc1p` or `tb1p`,
`isValidAddress` returns `true` iff the string is exactly 62 characters
long: the Taproot branch performs no bech32m checksum or character-set
validation at all. -/
theorem isValidAddress_taproot (s : JStr)
    (h : "bc1p".toList.isPrefixOf s ∨ "tb1p".toList.isPrefixOf s) :
    isValidAddress s = true ↔ s.length = 62 := by
  obtain h | h := h
  · obtain ⟨t, rfl⟩ := (List.isPrefixOf_iff_prefix.mp h)
    simp [isValidAddress, List.isPrefixOf]
  · obtain ⟨t, rfl⟩ := (List.isPrefixOf_iff_prefix.mp h)
    simp [isValidAddress, List.isPrefixOf]

theorem isValidAddress_taproot_witness :
    ("bc1p".toList.isPrefixOf addr62 ∨ "tb1p".toList.isPrefixOf addr62) ∧
    (isValidAddress addr62 = true ↔ addr62.length = 62) :=
  ⟨Or.inl (by decide), isValidAddress_taproot addr62 (Or.inl (by decide))⟩

/-! ## Claims C1 and C2: preimage and serialization layout -/

/-- Per-output scriptPubKeys, failing on the first unsupported
address — the script computations shared by the byte-layout claims. -/
def scriptsOf : List TxOutput → Network → Except String (List (List Nat))
  | [], _ => .ok []
  | o :: os, n =>
    match addressToScriptPubKey o.address n with
    | .error e => .error e
    | .ok s =>
      match scriptsOf os n with
      | .error e => .error e
      | .ok ss => .ok (s :: ss)

/-- The output concatenation as the preimage claim words it: per output,
`LE8(value) ‖ script-length byte ‖ scriptPubKey`. -/
def specOutputsConcat : List TxOutput → List (List Nat) → List Nat
  | o :: os, s :: ss =>
    uint64ToLE o.value ++ s.length :: s ++ specOutputsConcat os ss
  | _, _ => []

/-- The output section as the serialization claim words it: per output,
`LE8(value) ‖ varint(scriptPubKey length) ‖ scriptPubKey`. -/
def specOutputsSer : List TxOutput → List (List Nat) → List Nat
  | o :: os, s :: ss =>
    uint64ToLE o.value ++ encodeVarInt s.length ++ s ++ specOutputsSer os ss
  | _, _ => []

theorem outputsData_scriptsOf (os : List TxOutput) (n : Network) :
    outputsData os n = (scriptsOf os n).map (specOutputsConcat os) := by
  induction os with
  | nil => rfl
  | cons o os ih =>
    rw [outputsData, scriptsOf]
    cases addressToScriptPubKey o.address n with
    | error e => rfl
    | ok s =>
      rw [ih]
      cases scriptsOf os n with
      | error e => rfl
      | ok ss => rfl

theorem outputsSerialized_scriptsOf (os : List TxOutput) (n : Network) :
    outputsSerialized os n = (scriptsOf os n).map (specOutputsSer os) := by
  induction os with
  | nil => rfl
  | cons o os ih =>
    rw [outputsSerialized, scriptsOf]
    cases addressToScriptPubKey o.address n with
    | error e => rfl
    | ok s =>
      rw [ih]
      cases scriptsOf os n with
      | error e => rfl
      | ok ss => rfl

/-- **C1.** For every transaction, private key whose public key derives,
and outputs whose scripts resolve, `signTransaction` computes per input
`i` exactly the BIP-143 preimage
`LE4(version) ‖ hashPrevouts ‖ hashSequence ‖ rev-txid(i) ‖ LE4(vout i) ‖
scriptCode ‖ LE8(value i) ‖ LE4(ffffffff) ‖ hashOutputs ‖ LE4(locktime) ‖
LE4(1)`, with `scriptCode = 0x19 0x76 0xa9 0x14 ‖ hash160(pubkey) ‖ 0x88
0xac`, `hashPrevouts` the double SHA-256 of all `rev-txid ‖ LE4(vout)` in
input order, `hashSequence` the double SHA-256 of `LE4(ffffffff)` once
per input, and `hashOutputs` the double SHA-256 of
`LE8(value) ‖ length byte ‖ scriptPubKey` in output order. -/
theorem signPreimages_layout (tx : UnsignedTransaction) (privateKey : Nat)
    (pub : List Nat) (scripts : List (List Nat))
    (hpub : getPublicKey privateKey = .ok pub)
    (hscr : scriptsOf tx.outputs tx.network = .ok scripts) :
    signPreimages tx privateKey = .ok (tx.inputs.map (fun i =>
      uint32ToLE tx.version ++
      doubleSha256 (tx.inputs.flatMap (fun j =>
        (hexToBytes j.txid).reverse ++ uint32ToLE j.vout)) ++
      doubleSha256 (tx.inputs.flatMap (fun _ => uint32ToLE 0xffffffff)) ++
      (hexToBytes i.txid).reverse ++
      uint32ToLE i.vout ++
      (0x19 :: 0x76 :: 0xa9 :: 0x14 :: (hash160 pub ++ [0x88, 0xac])) ++
      uint64ToLE i.value ++
      uint32ToLE 0xffffffff ++
      doubleSha256 (specOutputsConcat tx.outputs scripts) ++
      uint32ToLE tx.locktime ++
      uint32ToLE 1)) := by
  rw [signPreimages, hpub, outputsData_scriptsOf, hscr]
  simp only [Except.map]
  congr 1

/-- **C2.** With one witness stack per input, `serializeTransaction`
returns the hex of exactly
`LE4(version) ‖ 00 01 ‖ varint(#in) ‖ per-input (rev-txid ‖ LE4(vout) ‖
00 ‖ LE4(ffffffff)) ‖ varint(#out) ‖ per-output (LE8(value) ‖
varint(len) ‖ scriptPubKey) ‖ per-stack (varint(#items) ‖ per-item
(varint(len) ‖ bytes)) ‖ LE4(locktime)`. -/
theorem serializeTransaction_layout (tx : UnsignedTransaction)
    (witnesses : List (List (List Nat))) (scripts : List (List Nat))
    (hw : witnesses.length = tx.inputs.length)
    (hscr : scriptsOf tx.outputs tx.network = .ok scripts) :
    serializeTransaction tx witnesses = .ok (bytesToHex (
      uint32ToLE tx.version ++
      [0x00, 0x01] ++
      encodeVarInt tx.inputs.length ++
      tx.inputs.flatMap (fun i =>
        (hexToBytes i.txid).reverse ++ uint32ToLE i.vout ++
        [0x00] ++ uint32ToLE 0xffffffff) ++
      encodeVarInt tx.outputs.length ++
      specOutputsSer tx.outputs scripts ++
      witnesses.flatMap (fun w =>
        encodeVarInt w.length ++
        w.flatMap (fun item => encodeVarInt item.length ++ item)) ++
      uint32ToLE tx.locktime)) := by
  clear hw
  rw [serializeTransaction, outputsSerialized_scriptsOf, hscr]
  simp only [Except.map]

/-- Compressed public key of the scalar 1 (the base point, even `y`). -/
def pubW : List Nat :=
  0x02 :: be32bytes 0x79be667ef9dcbbac55a06295ce870b07029bfcdb2dce28d959f2815b16f81798

/-- A P2WPKH one-input one-output mainnet transaction. -/
def txW : UnsignedTransaction :=
  { version := 2,
    inputs := [{ txid := List.replicate 64 'a', vout := 0, value := 100000 }],
    outputs := [{ address := "bc1qw508d6qejxtdg4y5r3zarvary0c5xw7kv8f3t4".toList,
                  value := 90000 }],
    locktime := 0, network := .mainnet }

/-- The P2WPKH scriptPubKey of `txW`'s output address. -/
def spkW : List Nat :=
  0x00 :: 0x14 :: [0x75, 0x1e, 0x76, 0xe8, 0x19, 0x91, 0x96, 0xd4, 0x54, 0x94,
    0x1c, 0x45, 0xd1, 0xb3, 0xa3, 0x23, 0xf1, 0x43, 0x3b, 0xd6]

/-- A two-item witness stack for `txW`'s single input. -/
def witStackW : List (List Nat) := [[0x30, 0x45], [0x02, 0x79]]

set_option maxRecDepth 10000 in
theorem signPreimages_layout_witness :
    getPublicKey 1 = .ok pubW ∧
    scriptsOf txW.outputs txW.network = .ok [spkW] ∧
    signPreimages txW 1 = .ok (txW.inputs.map (fun i =>
      uint32ToLE txW.version ++
      doubleSha256 (txW.inputs.flatMap (fun j =>
        (hexToBytes j.txid).reverse ++ uint32ToLE j.vout)) ++
      doubleSha256 (txW.inputs.flatMap (fun _ => uint32ToLE 0xffffffff)) ++
      (hexToBytes i.txid).reverse ++
      uint32ToLE i.vout ++
      (0x19 :: 0x76 :: 0xa9 :: 0x14 :: (hash160 pubW ++ [0x88, 0xac])) ++
      uint64ToLE i.value ++
      uint32ToLE 0xffffffff ++
      doubleSha256 (specOutputsConcat txW.outputs [spkW]) ++
      uint32ToLE txW.locktime ++
      uint32ToLE 1)) :=
  ⟨by decide, by decide,
    signPreimages_layout txW 1 pubW [spkW] (by decide) (by decide)⟩

set_option maxRecDepth 10000 in
theorem serializeTransaction_layout_witness :
    ([witStackW] : List (List (List Nat))).length = txW.inputs.length ∧
    scriptsOf txW.outputs txW.network = .ok [spkW] ∧
    serializeTransaction txW [witStackW] = .ok (bytesToHex (
      uint32ToLE txW.version ++
      [0x00, 0x01] ++
      encodeVarInt txW.inputs.length ++
      txW.inputs.flatMap (fun i =>
        (hexToBytes i.txid).reverse ++ uint32ToLE i.vout ++
        [0x00] ++ uint32ToLE 0xffffffff) ++
      encodeVarInt txW.outputs.length ++
      specOutputsSer txW.outputs [spkW] ++
      ([witStackW] : List (List (List Nat))).flatMap (fun w =>
        encodeVarInt w.length ++
        w.flatMap (fun item => encodeVarInt item.length ++ item)) ++
      uint32ToLE txW.locktime)) :=
  ⟨by decide, by decide,
    serializeTransaction_layout txW [witStackW] [spkW] (by decide) (by decide)⟩

/-! ## Claim C8: address to scriptPubKey -/

/-- A genuine (bech32m-checksummed) Taproot address: version word 1,
52 zero data words (a 32-zero-byte program), bech32m checksum. -/
def taprootAddrM : JStr :=
  "bc1p".toList ++ List.replicate 52 'q' ++ "pqqenm".toList

/-- The same payload checksummed with plain bech32 — not a valid
Taproot address, but the form the source actually accepts. -/
def taprootAddrB : JStr :=
  "bc1p".toList ++ List.replicate 52 'q' ++ "5us4ke".toList

set_option maxRecDepth 40000 in
set_option maxHeartbeats 1000000 in
/-- **C8** counterexample: `taprootAddrM` is a valid bech32m Taproot
address — bech32m decoding (constant `0x2bc830a3`) succeeds and its 52
data words regroup to a 32-byte witness program — yet
`addressToScriptPubKey` rejects it with a checksum error instead of
returning the claimed `0x51 0x20 ‖ program` script, because the source
decodes the `bc1p` branch with plain bech32 (constant 1). -/
theorem addressToScriptPubKey_bech32m_counterexample :
    bech32DecodeWith 0x2bc830a3 taprootAddrM =
      .ok ("bc".toList, 1 :: List.replicate 52 0) ∧
    fromWords ((1 :: List.replicate 52 0).drop 1) = .ok (List.replicate 32 0) ∧
    addressToScriptPubKey taprootAddrM .mainnet = .error "Invalid checksum" := by
  refine ⟨by decide, by decide, by decide⟩

/-- **C8** (amended): the `bc1q`/`tb1q` branch returns
`OP_0 ‖ 0x14 ‖ program` for addresses whose plain-bech32 decoding yields
a zero version word and a 20-byte program; the `bc1p`/`tb1p` branch also
decodes with plain bech32 — not bech32m — and returns
`OP_1 ‖ 0x20 ‖ program` for a 32-byte program (so genuine bech32m
Taproot addresses are rejected); any other prefix gets the
unsupported-address-format error. -/
theorem addressToScriptPubKey_branches :
    (∀ (address : JStr) (network : Network) (hrp : JStr)
      (words program : List Nat),
      (netHrp network ++ ['1', 'q']).isPrefixOf address = true →
      bech32DecodeWith 1 address = .ok (hrp, words) →
      fromWords (words.drop 1) = .ok program →
      words.getD 0 0 = 0 →
      program.length = 20 →
      addressToScriptPubKey address network = .ok (0x00 :: 0x14 :: program)) ∧
    (∀ (address : JStr) (network : Network) (hrp : JStr)
      (words program : List Nat),
      (netHrp network ++ ['1', 'q']).isPrefixOf address = false →
      (netHrp network ++ ['1', 'p']).isPrefixOf address = true →
      bech32DecodeWith 1 address = .ok (hrp, words) →
      fromWords (words.drop 1) = .ok program →
      program.length = 32 →
      addressToScriptPubKey address network = .ok (0x51 :: 0x20 :: program)) ∧
    (∀ (address : JStr) (network : Network),
      (netHrp network ++ ['1', 'q']).isPrefixOf address = false →
      (netHrp network ++ ['1', 'p']).isPrefixOf address = false →
      addressToScriptPubKey address network =
        .error "Unsupported address format") := by
  refine ⟨?_, ?_, ?_⟩
  · intro address network hrp words program hq hdec hfrom hver hlen
    rw [addressToScriptPubKey]
    simp only [hq, if_true, hdec, hfrom]
    rw [if_neg (by omega)]
    rw [hver, hlen]
    simp
  · intro address network hrp words program hq hp hdec hfrom hlen
    rw [addressToScriptPubKey]
    simp only [hq, hp, if_true, if_false, Bool.false_eq_true, hdec, hfrom]
    rw [if_neg (by omega)]
    rw [hlen]
    simp
  · intro address network hq hp
    rw [addressToScriptPubKey]
    simp only [hq, hp, Bool.false_eq_true, if_false]

/-- The BIP-173 example P2WPKH mainnet address. -/
def addrQ : JStr := "bc1qw508d6qejxtdg4y5r3zarvary0c5xw7kv8f3t4".toList

/-- Data words of `addrQ`: version word 0, then the 5-bit program words. -/
def wordsQ : List Nat :=
  [0, 14, 20, 15, 7, 13, 26, 0, 25, 18, 6, 11, 13, 8, 21, 4, 20,
   3, 17, 2, 29, 3, 12, 29, 3, 4, 15, 24, 20, 6, 14, 30, 22]

/-- The 20-byte witness program of `addrQ`. -/
def progQ : List Nat :=
  [0x75, 0x1e, 0x76, 0xe8, 0x19, 0x91, 0x96, 0xd4, 0x54, 0x94,
   0x1c, 0x45, 0xd1, 0xb3, 0xa3, 0x23, 0xf1, 0x43, 0x3b, 0xd6]

/-- A legacy base58 address: neither branch prefix matches. -/
def legacyAddr : JStr := "1BvBMSEYstWetqTFn5Au4m4GFg7xJaNVN2".toList

set_option maxRecDepth 40000 in
set_option maxHeartbeats 1000000 in
theorem addressToScriptPubKey_branches_witness :
    addressToScriptPubKey addrQ .mainnet = .ok (0x00 :: 0x14 :: progQ) ∧
    addressToScriptPubKey taprootAddrB .mainnet =
      .ok (0x51 :: 0x20 :: List.replicate 32 0) ∧
    addressToScriptPubKey legacyAddr .mainnet =
      .error "Unsupported address format" :=
  ⟨addressToScriptPubKey_branches.1 addrQ .mainnet "bc".toList wordsQ progQ
      (by decide) (by decide) (by decide) (by decide) (by decide),
   addressToScriptPubKey_branches.2.1 taprootAddrB .mainnet "bc".toList
      (1 :: List.replicate 52 0) (List.replicate 32 0)
      (by decide) (by decide) (by decide) (by decide) (by decide),
   addressToScriptPubKey_branches.2.2 legacyAddr .mainnet
      (by decide) (by decide)⟩
